import Mathlib

/-!
Shallow embedding of the TGChannel-Push publication scheduler and placement
reconciler, together with proofs about the behaviour of its operations.

The embedding follows the Python sources:
  * `src/tgchannel_push/services/telegram_utils.py` (retry wrapper, safe ops)
  * `src/tgchannel_push/services/publisher.py` (publish + pin pipeline)
  * `src/tgchannel_push/scheduler/jobs/publish.py` (reconciler and selector)
  * `src/tgchannel_push/api/routes/slots.py` (clear / delete routes)
  * `src/tgchannel_push/scheduler/scheduler.py` (job synchronisation)
  * `src/techannel_push/database/models.py` (data model)

External collaborators (the Telegram client library, hashlib, the stdlib
pseudo-random generator, APScheduler's trigger engine) are modelled as
parameters: the outcome of each network call is an explicit argument, and
the hash/shuffle used by the random selector is passed in as a function.
Identifiers are `Nat`, timestamps are `Nat` (seconds), chat ids are `Int`.
-/

namespace TGPush

/-- Row of the `ad_creatives` table; only the columns read by the scheduler
core are kept (media/caption columns are never inspected by it). -/
structure AdCreative where
  id : Nat
  enabled : Bool
  deriving DecidableEq, Repr

/-- Row of the `channels` table (columns used by the scheduler core). -/
structure Channel where
  id : Nat
  tgChatId : Int
  status : String
  deriving DecidableEq, Repr

/-- Row of the `slots` table. -/
structure Slot where
  id : Nat
  groupId : Nat
  slotIndex : Nat
  slotType : String            -- "fixed" / "random"
  enabled : Bool
  publishCron : String
  deleteMode : String          -- "none" / "cron" / "after_seconds"
  deleteCron : Option String
  deleteAfterSeconds : Option Nat
  rotationOffset : Nat
  deriving DecidableEq, Repr

/-- Row of the `placements` table. -/
structure Placement where
  channelId : Nat
  slotId : Nat
  creativeId : Option Nat
  messageId : Option Nat
  isPinned : Bool
  publishedAt : Option Nat
  scheduledDeleteAt : Option Nat
  deletedAt : Option Nat
  deriving DecidableEq, Repr

/-- Row of the `operation_logs` table (the audit trail). -/
structure OperationLog where
  opType : String
  channelId : Option Nat
  slotId : Option Nat
  creativeId : Option Nat
  messageId : Option Nat
  status : String              -- "success" / "failed"
  errorMessage : Option String
  deriving DecidableEq, Repr

/-- Mutable persistent state touched by the reconciler: the placements table
and the append-only operation log. -/
structure DbState where
  placements : List Placement
  logs : List OperationLog
  deriving DecidableEq, Repr

/-- Exceptions of the Telegram client library.  `retryAfter` is
`TelegramRetryAfter` (a subclass of `TelegramAPIError`), `apiError` is any
other `TelegramAPIError`, `other` is any non-Telegram exception. -/
inductive TgError where
  | retryAfter (wait : Nat) (msg : String)
  | apiError (msg : String)
  | other (msg : String)
  deriving DecidableEq, Repr

/-- Result of one underlying network call. -/
inductive Outcome (α : Type) where
  | ok (v : α)
  | err (e : TgError)
  deriving DecidableEq, Repr

/-- Python-level exceptions that can escape the repository's own functions. -/
inductive PyErr where
  | tg (e : TgError)
  | typeError            -- e.g. unpacking a non-iterable value
  | multipleResults      -- sqlalchemy scalar_one_or_none on 2+ rows
  deriving DecidableEq, Repr

/-- The `str(e)` text used in audit rows and in retry classification. -/
def TgError.msg : TgError → String
  | .retryAfter _ m => m
  | .apiError m => m
  | .other m => m

/-- Text form of a Python exception, as stored in `error_message`. -/
def PyErr.msg : PyErr → String
  | .tg e => e.msg
  | .typeError => "cannot unpack non-iterable bool object"
  | .multipleResults => "Multiple rows were found when one or none was required"

/-- Character sequence of `str.lower()` applied to the text. -/
def lowerData (s : String) : List Char :=
  s.data.map Char.toLower

/-- Substring test, modelling Python's `needle in hay`. -/
def containsSub (hay : List Char) (needle : String) : Bool :=
  decide (needle.data <:+: hay)

/-- Classification from `with_retry`: `any(x in error_str for x in
["timeout", "connection", "network"])` over the lowercase error text. -/
def isTransientMsg (msg : String) : Bool :=
  let s := lowerData msg
  containsSub s "timeout" || containsSub s "connection" || containsSub s "network"

/-- Default retry configuration from `telegram_utils.py`. -/
def DEFAULT_MAX_RETRIES : Nat := 3

/-- Default base delay (seconds) from `telegram_utils.py`. -/
def DEFAULT_BASE_DELAY : Nat := 1

/-- Observable behaviour of one `with_retry` invocation: the final result
(`.ok none` is the fall-through return of the Python function body),
the sleeps performed in order, and the number of underlying calls made. -/
structure RetryTrace (α : Type) where
  result : Except TgError (Option α)
  sleeps : List Nat
  calls : Nat
  deriving Repr

/-- Sleep performed before retrying, or `none` if the error is re-raised
immediately.  A rate-limit signal sleeps `wait + 1` (the one-second buffer);
a transient API error sleeps `base_delay * 2 ^ attempt`; everything else
is not retried. -/
def retrySleep (e : TgError) (baseDelay attempt : Nat) : Option Nat :=
  match e with
  | .retryAfter w _ => some (w + 1)
  | .apiError m => if isTransientMsg m then some (baseDelay * 2 ^ attempt) else none
  | .other _ => none

/-- Loop body of `with_retry`: `attempt` is the current loop index, `fuel`
the remaining iterations of `range(max_retries + 1)`, `last` the stored
`last_exception`. -/
def withRetryGo (outcomes : Nat → Outcome α) (baseDelay : Nat) :
    Nat → Nat → Option TgError → RetryTrace α
  | _, 0, last =>
    match last with
    | some e => ⟨.error e, [], 0⟩
    | none => ⟨.ok none, [], 0⟩
  | attempt, fuel + 1, _ =>
    match outcomes attempt with
    | .ok v => ⟨.ok (some v), [], 1⟩
    | .err e =>
      match retrySleep e baseDelay attempt with
      | some s =>
        let t := withRetryGo outcomes baseDelay (attempt + 1) fuel (some e)
        ⟨t.result, s :: t.sleeps, t.calls + 1⟩
      | none => ⟨.error e, [], 1⟩

/-- `with_retry` from `telegram_utils.py`: run `outcomes` (the behaviour of
the wrapped coroutine, indexed by attempt) for up to `maxRetries + 1`
attempts. -/
def with_retry (outcomes : Nat → Outcome α) (maxRetries baseDelay : Nat) :
    RetryTrace α :=
  withRetryGo outcomes baseDelay 0 (maxRetries + 1) none

/-- Is the error a `TelegramAPIError` (including its `TelegramRetryAfter`
subclass)?  Used to model `except TelegramAPIError` handlers. -/
def TgError.isApiClass : TgError → Bool
  | .retryAfter _ _ => true
  | .apiError _ => true
  | .other _ => false

/-- `delete_message_safe` from `telegram_utils.py`: retry the delete; treat
a "message to delete not found" / "message can't be deleted" API error as a
successful no-op; other API errors yield `false`; non-Telegram exceptions
propagate. -/
def delete_message_safe (outcomes : Nat → Outcome Unit) : Except TgError Bool :=
  match (with_retry outcomes DEFAULT_MAX_RETRIES DEFAULT_BASE_DELAY).result with
  | .ok _ => .ok true
  | .error e =>
    if e.isApiClass then
      let s := lowerData e.msg
      if containsSub s "message to delete not found"
          || containsSub s "message can\x27t be deleted" then
        .ok true
      else
        .ok false
    else
      .error e

/-- `unpin_message_safe` from `telegram_utils.py`: retry the unpin; ANY
`TelegramAPIError` (including "message is not pinned") yields `false`;
non-Telegram exceptions propagate. -/
def unpin_message_safe (outcomes : Nat → Outcome Unit) : Except TgError Bool :=
  match (with_retry outcomes DEFAULT_MAX_RETRIES DEFAULT_BASE_DELAY).result with
  | .ok _ => .ok true
  | .error e => if e.isApiClass then .ok false else .error e

/-- `pin_message_safe` from `telegram_utils.py`: returns a single `Bool`
(`true` on success, `false` on any `TelegramAPIError`). -/
def pin_message_safe (outcomes : Nat → Outcome Unit) : Except TgError Bool :=
  match (with_retry outcomes DEFAULT_MAX_RETRIES DEFAULT_BASE_DELAY).result with
  | .ok _ => .ok true
  | .error e => if e.isApiClass then .ok false else .error e

/-- `publish_creative_to_channel` from `services/publisher.py`.  The send
phase (one of the `send_*_safe` / `copy_message_safe` branches, all of which
end in `result.message_id`) is driven by `sendOutcomes`; the pin phase by
`pinOutcomes`.  After a successful send the code executes

  `pin_ok, pin_error_message = await pin_message_safe(...)`

but `pin_message_safe` returns a single `Bool` (`telegram_utils.py`), so the
tuple unpacking raises `TypeError` before the declared triple can be
returned. -/
def publish_creative_to_channel (sendOutcomes : Nat → Outcome Nat)
    (pinOutcomes : Nat → Outcome Unit) :
    Except PyErr (Nat × Bool × Option String) :=
  match (with_retry sendOutcomes DEFAULT_MAX_RETRIES DEFAULT_BASE_DELAY).result with
  | .error e => .error (.tg e)
  | .ok none => .error .typeError   -- `None.message_id`: unreachable fall-through
  | .ok (some _messageId) =>
    match pin_message_safe pinOutcomes with
    | .error e => .error (.tg e)
    | .ok _pinRes => .error .typeError  -- unpacking the Bool into two names

/-- Key test of the unique `(channel_id, slot_id)` placement index. -/
def placementKeyB (chId slId : Nat) (p : Placement) : Bool :=
  p.channelId == chId && p.slotId == slId

/-- Rows of the placements table matching a (channel, slot) key — the
`select(Placement).where(channel_id).where(slot_id)` query. -/
def matchingRows (st : DbState) (chId slId : Nat) : List Placement :=
  st.placements.filter (placementKeyB chId slId)

/-- The audit row written by `publish_to_channel_with_dedup` for one
destination, as a function of the publish outcome. -/
def mkPublishLog (slot : Slot) (creative : AdCreative) (ch : Channel)
    (pub : Except PyErr Nat) : OperationLog :=
  match pub with
  | .ok m =>
    ⟨"publish", some ch.id, some slot.id, some creative.id, some m, "success", none⟩
  | .error e =>
    ⟨"publish", some ch.id, some slot.id, some creative.id, none, "failed", some e.msg⟩

/-- Field updates of the upsert in `publish_to_channel_with_dedup`
(lines 188-198 of `publish.py`). -/
def upsertFields (slot : Slot) (creative : AdCreative) (msgId now2 : Nat)
    (p : Placement) : Placement :=
  { p with
    creativeId := some creative.id
    messageId := some msgId
    isPinned := true
    publishedAt := some now2
    deletedAt := none
    scheduledDeleteAt :=
      match slot.deleteMode == "after_seconds", slot.deleteAfterSeconds with
      | true, some secs => if secs != 0 then some (now2 + secs) else none
      | _, _ => none }

/-- Fresh `Placement(channel_id=..., slot_id=...)` row with column
defaults. -/
def newPlacement (chId slId : Nat) : Placement :=
  ⟨chId, slId, none, none, false, none, none, none⟩

/-- Phase-1 marking of `publish_to_channel_with_dedup`: the looked-up row —
if it has a message id and is still active — gets `deleted_at = now1`
(applied per row; at most one row matches the key). -/
def markOldF (chId slId now1 : Nat) (q : Placement) : Placement :=
  if placementKeyB chId slId q && q.messageId.isSome && q.deletedAt.isNone then
    { q with deletedAt := some now1 }
  else q

/-- Per-row form of the upsert update applied to the looked-up row. -/
def upsertApply (slot : Slot) (creative : AdCreative) (msgId now2 chId : Nat)
    (q : Placement) : Placement :=
  if placementKeyB chId slot.id q then upsertFields slot creative msgId now2 q else q

/-- `publish_to_channel_with_dedup` from `publish.py`.  `pub` is the result
of `await publish_creative_to_channel(creative, channel)` (an exception or a
message id); `now1` is the timestamp of the old-message marking, `now2` of
the new publish.  The old-message delete call is fire-and-forget (failures
only logged), so it does not appear in the state transition.  A
`MultipleResultsFound` from `scalar_one_or_none` propagates. -/
def publish_to_channel_with_dedup (st : DbState) (slot : Slot)
    (creative : AdCreative) (channel : Channel) (pub : Except PyErr Nat)
    (now1 now2 : Nat) : Except PyErr DbState :=
  match matchingRows st channel.id slot.id with
  | _ :: _ :: _ => .error .multipleResults
  | found =>
    -- phase 1: delete old remote message, mark the row deleted regardless
    let st1 : DbState :=
      match found with
      | [] => st
      | _ :: _ =>
        { st with placements := st.placements.map (markOldF channel.id slot.id now1) }
    -- phase 2: publish the new message and upsert, or log the failure
    match pub with
    | .error e =>
      .ok { st1 with logs := st1.logs ++ [mkPublishLog slot creative channel (.error e)] }
    | .ok msgId =>
      let placements2 :=
        match found with
        | [] => st1.placements ++ [upsertFields slot creative msgId now2 (newPlacement channel.id slot.id)]
        | _ :: _ => st1.placements.map (upsertApply slot creative msgId now2 channel.id)
      .ok { placements :=  placements2
            logs := st1.logs ++ [mkPublishLog slot creative channel (.ok msgId)] }

/-- `execute_fixed_slot` from `publish.py`: publish the same creative to
every channel in order. -/
def execute_fixed_slot (st : DbState) (slot : Slot) (creative : AdCreative)
    (pubs : Channel → Except PyErr Nat) (now1 now2 : Nat) :
    List Channel → Except PyErr DbState
  | [] => .ok st
  | ch :: rest => do
    let st' ← publish_to_channel_with_dedup st slot creative ch (pubs ch) now1 now2
    execute_fixed_slot st' slot creative pubs now1 now2 rest

/-- Active creative ids of OTHER slots on a channel — the query in
`find_available_creative` plus the set comprehension
`{row[0] for row in ... if row[0]}` (which drops NULL and falsy 0). -/
def activeOtherCreativeIds (placements : List Placement) (channelId slotId : Nat) :
    List Nat :=
  placements.filterMap (fun p =>
    if p.channelId == channelId && p.slotId != slotId && p.deletedAt.isNone then
      match p.creativeId with
      | some cid => if cid != 0 then some cid else none
      | none => none
    else none)

/-- Rotation walk of `find_available_creative` (`for i in range(len)` over
`creatives[(offset + i) % len]`).  `count` is the remaining iterations,
`i` the current loop index. -/
def favFrom (creatives : List AdCreative) (activeIds : List Nat) (offset : Nat) :
    Nat → Nat → Option AdCreative
  | 0, _ => none
  | count + 1, i =>
    match creatives.get? ((offset + i) % creatives.length) with
    | none => none
    | some c =>
      if activeIds.contains c.id then favFrom creatives activeIds offset count (i + 1)
      else some c

/-- `find_available_creative` from `publish.py`. -/
def find_available_creative (placements : List Placement) (channelId slotId : Nat)
    (creatives : List AdCreative) (offset : Nat) : Option AdCreative :=
  favFrom creatives (activeOtherCreativeIds placements channelId slotId) offset
    creatives.length 0

/-- Loop of `execute_random_slot` over `enumerate(channels)`: for the `i`-th
channel, look for a creative at offset `rotation_offset + i`; publish it if
found, otherwise skip that channel without touching state.  Returns the final
state together with the per-channel decision trace. -/
def execute_random_slot_go (slot : Slot) (shuffled : List AdCreative)
    (pubs : Channel → Except PyErr Nat) (now1 now2 : Nat) :
    DbState → List Channel → Nat →
    Except PyErr (DbState × List (Channel × Option AdCreative))
  | st, [], _ => .ok (st, [])
  | st, ch :: rest, i =>
    match find_available_creative st.placements ch.id slot.id shuffled
        (slot.rotationOffset + i) with
    | some c => do
      let st' ← publish_to_channel_with_dedup st slot c ch (pubs ch) now1 now2
      let r ← execute_random_slot_go slot shuffled pubs now1 now2 st' rest (i + 1)
      .ok (r.1, (ch, some c) :: r.2)
    | none => do
      let r ← execute_random_slot_go slot shuffled pubs now1 now2 st rest (i + 1)
      .ok (r.1, (ch, none) :: r.2)

/-- A Python `datetime.now(ZoneInfo(settings.timezone))` value, split into
the calendar-date component (`now.date()`) and the rest (time of day),
both rendered in the one configured timezone. -/
structure PyDateTime where
  date : String
  timeOfDay : String
  deriving DecidableEq, Repr

/-- The deterministic day permutation of `execute_random_slot`
(lines 100-110 of `publish.py`):

  `cycle_key = f"{now.date()}_{slot.id}"`,
  `seed = int(hashlib.md5(cycle_key.encode()).hexdigest()[:8], 16)`,
  `random.Random(seed).shuffle(copy of creatives)`.

`md5seed` models the composition of MD5, hex truncation and base-16 parse;
`shuffle` models the seeded Mersenne-Twister shuffle.  Both are pure
functions of their arguments (external stdlib collaborators). -/
def shuffledCreatives (md5seed : String → Nat)
    (shuffle : Nat → List AdCreative → List AdCreative)
    (now : PyDateTime) (slotId : Nat) (creatives : List AdCreative) :
    List AdCreative :=
  shuffle (md5seed (now.date ++ "_" ++ Nat.repr slotId)) creatives

/-- `execute_random_slot` from `publish.py`. -/
def execute_random_slot (md5seed : String → Nat)
    (shuffle : Nat → List AdCreative → List AdCreative)
    (st : DbState) (slot : Slot) (creatives : List AdCreative)
    (channels : List Channel) (pubs : Channel → Except PyErr Nat)
    (now : PyDateTime) (now1 now2 : Nat) :
    Except PyErr (DbState × List (Channel × Option AdCreative)) :=
  execute_random_slot_go slot (shuffledCreatives md5seed shuffle now slot.id creatives)
    pubs now1 now2 st channels 0

/-- `execute_slot_publish` from `publish.py` (given the loaded slot, its
bound creatives and the group's active channels).  Disabled slots, slots
with no enabled creative and empty channel lists return without touching
state; otherwise the fixed or random branch runs, and `rotation_offset`
advances once per cycle for random slots. -/
def execute_slot_publish (md5seed : String → Nat)
    (shuffle : Nat → List AdCreative → List AdCreative)
    (st : DbState) (slot : Slot) (slotCreatives : List AdCreative)
    (channels : List Channel) (pubs : Channel → Except PyErr Nat)
    (now : PyDateTime) (now1 now2 : Nat) : Except PyErr (DbState × Slot) :=
  if !slot.enabled then .ok (st, slot)
  else
    match slotCreatives.filter (fun c => c.enabled) with
    | [] => .ok (st, slot)
    | c0 :: _ =>
      let creatives := slotCreatives.filter (fun c => c.enabled)
      if channels.isEmpty then .ok (st, slot)
      else do
        let stAfter ←
          if slot.slotType == "fixed" then
            execute_fixed_slot st slot c0 pubs now1 now2 channels
          else
            (execute_random_slot md5seed shuffle st slot creatives channels pubs
              now now1 now2).map (fun r => r.1)
        let slot' :=
          if slot.slotType == "random" then
            { slot with rotationOffset := (slot.rotationOffset + 1) % creatives.length }
          else slot
        .ok (stAfter, slot')

/-- The row set collected by the clear/delete routes in `slots.py`:
`select(Placement, Channel).join(...).where(slot_id).where(deleted_at IS
NULL).where(message_id IS NOT NULL)`. -/
def joinActiveRows (st : DbState) (channels : List Channel) (slotId : Nat) :
    List (Placement × Channel) :=
  st.placements.filterMap (fun p =>
    if p.slotId == slotId && p.deletedAt.isNone && p.messageId.isSome then
      (channels.find? (fun c => c.id == p.channelId)).map (fun c => (p, c))
    else none)

/-- The `clear_slot` route (`slots.py` lines 290-331): collect the
`(tg_chat_id, message_id)` pairs of the slot's active placements, mark those
placements `deleted_at = now`, and return the new state with the queued
background-deletion list. -/
def clear_slot (st : DbState) (channels : List Channel) (slotId : Nat)
    (now : Nat) : DbState × List (Int × Nat) :=
  let rows := joinActiveRows st channels slotId
  let msgs := rows.map (fun pc => (pc.2.tgChatId, pc.1.messageId.getD 0))
  let placements2 := st.placements.map (fun p =>
    if p.slotId == slotId && p.deletedAt.isNone && p.messageId.isSome
        && (channels.find? (fun c => c.id == p.channelId)).isSome then
      { p with deletedAt := some now }
    else p)
  ({ st with placements := placements2 }, msgs)

/-- The `delete_slot` route (`slots.py` lines 219-253): collect the same
message list, then delete the slot, which cascades to all its placement
rows. -/
def delete_slot_route (st : DbState) (channels : List Channel) (slotId : Nat) :
    DbState × List (Int × Nat) :=
  let rows := joinActiveRows st channels slotId
  let msgs := rows.map (fun pc => (pc.2.tgChatId, pc.1.messageId.getD 0))
  ({ st with placements := st.placements.filter (fun p => p.slotId != slotId) }, msgs)

/-- `delete_slot_messages_background` from `slots.py`: for each queued
`(chat_id, message_id)` pair it unpins (result ignored) and deletes (the
`delete_message_safe` boolean is `delOutcome`), counting successes and
failures.  The function has no database session: it can only produce the
`(success_count, fail_count)` report. -/
def delete_slot_messages_background (msgs : List (Int × Nat))
    (delOutcome : Int → Nat → Bool) : Nat × Nat :=
  msgs.foldl (fun acc cm =>
    if delOutcome cm.1 cm.2 then (acc.1 + 1, acc.2) else (acc.1, acc.2 + 1)) (0, 0)

/-- APScheduler job key.  Publish jobs are registered under the string id
`f"slot_{slot.id}_publish"`; `slotPublish n` encodes that id (the encoding
`n -> "slot_<n>_publish"` is injective) and `otherJob s` any id not of this
shape.  The `job.id.startswith("slot_")` ownership test is `isSlotJob`. -/
inductive JobKey where
  | slotPublish (slotId : Nat)
  | otherJob (name : String)
  deriving DecidableEq, Repr

/-- Ownership test used when `sync_slot_jobs` removes its jobs. -/
def isSlotJob : JobKey → Bool
  | .slotPublish _ => true
  | .otherJob _ => false

/-- The validated 5-field trigger built by `parse_cron`. -/
structure CronTrigger where
  minute : String
  hour : String
  day : String
  month : String
  dayOfWeek : String
  deriving DecidableEq, Repr

/-- A registered APScheduler job: its key, the `args=[slot.id]` payload of
publish jobs, and the trigger of publish jobs. -/
structure Job where
  key : JobKey
  slotArg : Option Nat
  trigger : Option CronTrigger
  deriving DecidableEq, Repr

/-- Accumulating splitter over the character sequence: `cur` holds the
characters of the current field in reverse. -/
def splitWsAux : List Char → List Char → List String
  | [], cur => if cur.isEmpty then [] else [String.mk cur.reverse]
  | ch :: cs, cur =>
    if ch.isWhitespace then
      (if cur.isEmpty then [] else [String.mk cur.reverse]) ++ splitWsAux cs []
    else
      splitWsAux cs (ch :: cur)

/-- Python's `str.split()` with no argument: split on whitespace runs,
dropping empty fields. -/
def pySplit (s : String) : List String :=
  splitWsAux s.data []

/-- `parse_cron` from `scheduler.py`: the expression must have exactly 5
whitespace-separated fields, otherwise `ValueError` is raised. -/
def parse_cron (cronExpr : String) : Except String CronTrigger :=
  match pySplit cronExpr with
  | [m, h, d, mo, dow] => .ok ⟨m, h, d, mo, dow⟩
  | _ => .error ("Invalid cron expression: " ++ cronExpr)

/-- Does `parse_cron` accept the expression? -/
def cronOk (cronExpr : String) : Bool :=
  match parse_cron cronExpr with
  | .ok _ => true
  | .error _ => false

/-- The job registered for one enabled slot in the `sync_slot_jobs` loop,
or `none` when its cron expression raises and the slot is skipped. -/
def slotJobOf (s : Slot) : Option Job :=
  match parse_cron s.publishCron with
  | .ok trig => some ⟨.slotPublish s.id, some s.id, some trig⟩
  | .error _ => none

/-- `sync_slot_jobs` from `scheduler.py`: remove every job whose id starts
with "slot_", then add one publish job per enabled slot whose cron
expression parses; a slot whose `parse_cron` raises is skipped (logged) and
the loop continues. -/
def sync_slot_jobs (jobs : List Job) (slots : List Slot) : List Job :=
  let kept := jobs.filter (fun j => !isSlotJob j.key)
  kept ++ (slots.filter (fun s => s.enabled)).filterMap slotJobOf

/-- Number of registered jobs keyed by the publish trigger of slot `sid`. -/
def slotKeyCount (jobs : List Job) (sid : Nat) : Nat :=
  (jobs.filter (fun j => decide (j.key = JobKey.slotPublish sid))).length

/-- Two placement rows differ in their (channel, slot) key. -/
def keyDistinct (p q : Placement) : Prop :=
  ¬(p.channelId = q.channelId ∧ p.slotId = q.slotId)

/-- Two placement rows are not both active rows of one (channel, slot)
key. -/
def activeKeyDistinct (p q : Placement) : Prop :=
  ¬(p.channelId = q.channelId ∧ p.slotId = q.slotId ∧
    p.deletedAt = none ∧ q.deletedAt = none)

/-- Invariant: at most one placements row per (channel, slot) pair — the
unique index `idx_placements_channel_slot`. -/
def PairUnique (st : DbState) : Prop :=
  st.placements.Pairwise keyDistinct

/-- Invariant of the specification: at most one ACTIVE (deleted_at = null)
placements row per (channel, slot) pair. -/
def ActiveUnique (st : DbState) : Prop :=
  st.placements.Pairwise activeKeyDistinct

/-- Sleep of attempt `k` if it fails retryably, `none` if the call succeeds
or fails permanently. -/
def attemptSleep (o : Nat → Outcome α) (bd k : Nat) : Option Nat :=
  match o k with
  | .ok _ => none
  | .err e => retrySleep e bd k

/-- Concrete behaviour used to witness the retry contract: a single
rate-limit signal with wait 5, then success. -/
def retryWitnessOutcomes : Nat → Outcome Nat :=
  fun n => if n = 0 then .err (.retryAfter 5 "Flood control exceeded") else .ok 42

/-- Concrete fixtures used by witnesses. -/
def chanA : Channel := ⟨1, 1001, "active"⟩

def chanB : Channel := ⟨2, 1002, "active"⟩

def creativeW : AdCreative := ⟨7, true⟩

def slotW : Slot := ⟨3, 1, 1, "fixed", true, "0 12 * * *", "none", none, none, 0⟩

/-- Publish outcomes where destination `chanA` fails permanently and every
other destination succeeds. -/
def pubsW : Channel → Except PyErr Nat :=
  fun ch => if ch.id = 1 then .error (.tg (.apiError "chat not found")) else .ok 500

def cr1 : AdCreative := ⟨1, true⟩

def cr2 : AdCreative := ⟨2, true⟩

/-- A random-mode slot with rotation offset 0. -/
def slotR : Slot := ⟨4, 1, 2, "random", true, "0 12 * * *", "none", none, none, 0⟩

/-- Two enabled creatives bound to one slot, stored with the larger id
first. -/
def poolX : List AdCreative := [⟨5, true⟩, ⟨2, true⟩]

/-- A state with three active placements of slot 1. -/
def stC : DbState :=
  ⟨[⟨1, 1, some 1, some 10, true, some 0, none, none⟩,
    ⟨2, 1, some 2, some 11, true, some 0, none, none⟩,
    ⟨3, 1, some 3, some 12, true, some 0, none, none⟩], []⟩

def chansC : List Channel := [⟨1, 11, "active"⟩, ⟨2, 12, "active"⟩, ⟨3, 13, "active"⟩]

/-- Slot fixtures for the scheduler-sync witness: a valid enabled slot, an
enabled slot with a malformed cron expression, and a disabled slot. -/
def sGood : Slot := ⟨1, 1, 1, "fixed", true, "0 12 * * *", "none", none, none, 0⟩

def sBad : Slot := ⟨2, 1, 2, "fixed", true, "whenever", "none", none, none, 0⟩

def sOff : Slot := ⟨3, 1, 3, "fixed", false, "0 12 * * *", "none", none, none, 0⟩

def jobs0 : List Job := [⟨.otherJob "cleanup", none, none⟩]

/-- First-fit property of the rotation walk: `c` sits at some cyclic
position `start + j` of the pool, is not excluded, and every pool entry at
an earlier walk position is excluded. -/
def FirstFit (pool : List AdCreative) (excluded : List Nat) (start : Nat)
    (c : AdCreative) : Prop :=
  ∃ j, j < pool.length ∧ pool.get? ((start + j) % pool.length) = some c ∧
    c.id ∉ excluded ∧
    ∀ m, m < j → ∃ d, pool.get? ((start + m) % pool.length) = some d ∧ d.id ∈ excluded

/-! ### Retry wrapper lemmas -/

theorem withRetryGo_ok {o : Nat → Outcome α} {a : Nat} {v : α} (bd f : Nat)
    (last : Option TgError) (h : o a = .ok v) :
    withRetryGo o bd a (f + 1) last = ⟨.ok (some v), [], 1⟩ := by
  simp [withRetryGo, h]

theorem withRetryGo_sleep {o : Nat → Outcome α} {bd a : Nat} {e : TgError}
    {s : Nat} (f : Nat) (last : Option TgError)
    (h : o a = .err e) (hs : retrySleep e bd a = some s) :
    withRetryGo o bd a (f + 1) last =
      ⟨(withRetryGo o bd (a + 1) f (some e)).result,
       s :: (withRetryGo o bd (a + 1) f (some e)).sleeps,
       (withRetryGo o bd (a + 1) f (some e)).calls + 1⟩ := by
  simp [withRetryGo, h, hs]

theorem withRetryGo_stop {o : Nat → Outcome α} {bd a : Nat} {e : TgError}
    (f : Nat) (last : Option TgError)
    (h : o a = .err e) (hs : retrySleep e bd a = none) :
    withRetryGo o bd a (f + 1) last = ⟨.error e, [], 1⟩ := by
  simp [withRetryGo, h, hs]

theorem withRetryGo_calls_le (o : Nat → Outcome α) (bd : Nat) :
    ∀ (f a : Nat) (last : Option TgError), (withRetryGo o bd a f last).calls ≤ f
  | 0, a, last => by cases last <;> simp [withRetryGo]
  | f + 1, a, last => by
    cases h : o a with
    | ok v => simp [withRetryGo_ok bd f last h]
    | err e =>
      cases hs : retrySleep e bd a with
      | none => simp [withRetryGo_stop f last h hs]
      | some s =>
        rw [withRetryGo_sleep f last h hs]
        have := withRetryGo_calls_le o bd f (a + 1) (some e)
        simpa using Nat.add_le_add_right this 1

theorem withRetryGo_calls_pos (o : Nat → Outcome α) (bd f a : Nat)
    (last : Option TgError) : 1 ≤ (withRetryGo o bd a (f + 1) last).calls := by
  cases h : o a with
  | ok v => simp [withRetryGo_ok bd f last h]
  | err e =>
    cases hs : retrySleep e bd a with
    | none => simp [withRetryGo_stop f last h hs]
    | some s =>
      rw [withRetryGo_sleep f last h hs]
      exact Nat.succ_le_succ (Nat.zero_le _)

/-- Running the loop across a stretch of `n` retryably-failing attempts:
the trace is the `n` recorded sleeps followed by the trace of the remaining
fuel, and the stored `last_exception` after the stretch is the error of its
final attempt. -/
theorem withRetryGo_prefix (o : Nat → Outcome α) (bd : Nat) :
    ∀ (n a f : Nat) (last : Option TgError),
      (∀ j, j < n → (attemptSleep o bd (a + j)).isSome) →
      ∃ last2,
        withRetryGo o bd a (n + f) last =
          ⟨(withRetryGo o bd (a + n) f last2).result,
           (List.range n).map (fun j => (attemptSleep o bd (a + j)).getD 0)
             ++ (withRetryGo o bd (a + n) f last2).sleeps,
           (withRetryGo o bd (a + n) f last2).calls + n⟩ ∧
        (n = 0 → last2 = last) ∧
        (0 < n → ∃ e, o (a + n - 1) = .err e ∧ last2 = some e)
  | 0, a, f, last, _ => by
    refine ⟨last, ?_, fun _ => rfl, fun h => (Nat.lt_irrefl 0 h).elim⟩
    simp
  | n + 1, a, f, last, hall => by
    have h0 : (attemptSleep o bd a).isSome := by
      have := hall 0 (by omega); simpa using this
    obtain ⟨e, he, s, hs⟩ : ∃ e, o a = .err e ∧ ∃ s, retrySleep e bd a = some s := by
      unfold attemptSleep at h0
      cases h : o a with
      | ok v => simp [h] at h0
      | err e =>
        simp only [h] at h0
        cases hs : retrySleep e bd a with
        | none => simp [hs] at h0
        | some s => exact ⟨e, rfl, s, hs⟩
    have hall2 : ∀ j, j < n → (attemptSleep o bd (a + 1 + j)).isSome := by
      intro j hj
      have := hall (j + 1) (by omega)
      have harith : a + (j + 1) = a + 1 + j := by omega
      rwa [harith] at this
    obtain ⟨last2, heq, h0l, hpos⟩ := withRetryGo_prefix o bd n (a + 1) f (some e) hall2
    refine ⟨last2, ?_, fun h => absurd h (by omega), ?_⟩
    · have hstep := withRetryGo_sleep (f := n + f) last he hs
      have hnf : n + 1 + f = (n + f) + 1 := by omega
      have harith2 : a + 1 + n = a + (n + 1) := by omega
      have hpre : (List.range (n + 1)).map (fun j => (attemptSleep o bd (a + j)).getD 0) =
          s :: (List.range n).map (fun j => (attemptSleep o bd (a + 1 + j)).getD 0) := by
        rw [List.range_succ_eq_map, List.map_cons, List.map_map]
        have h01 : (attemptSleep o bd (a + 0)).getD 0 = s := by
          simp [attemptSleep, he, hs]
        rw [h01]
        congr 1
        apply List.map_congr_left
        intro j _
        have hj : a + (j + 1) = a + 1 + j := by omega
        simp [Function.comp, hj]
      rw [hnf, hstep, heq, harith2] at *
      rw [hpre, RetryTrace.mk.injEq]
      refine ⟨rfl, by simp, by simp [Nat.add_assoc]⟩
    · intro _
      by_cases hn : n = 0
      · subst hn
        refine ⟨e, ?_, h0l rfl⟩
        simpa using he
      · obtain ⟨e2, he2, hl2⟩ := hpos (by omega)
        refine ⟨e2, ?_, hl2⟩
        have : a + 1 + n - 1 = a + (n + 1) - 1 := by omega
        rwa [this] at he2

/-- C4: the Gateway retry wrapper, on a rate-limit signal carrying wait `w`,
performs exactly one retry after sleeping `w + 1 ≥ w` seconds; on transient
(timeout/connection/network) API errors it retries after
`base_delay * 2 ^ attempt`; both paths are bounded by the same
`max_retries + 1` attempt count, after which the last error is raised; on
permanent errors it fails immediately with no retry and no sleep. -/
theorem with_retry_contract (o : Nat → Outcome α) (maxRetries bd : Nat) :
    (with_retry o maxRetries bd).calls ≤ maxRetries + 1 ∧
    (∀ k w m, (∀ j, j < k → (attemptSleep o bd j).isSome) → k < maxRetries →
      o k = .err (.retryAfter w m) →
      (with_retry o maxRetries bd).sleeps.get? k = some (w + 1) ∧ w ≤ w + 1 ∧
      k + 2 ≤ (with_retry o maxRetries bd).calls) ∧
    (∀ k m, (∀ j, j < k → (attemptSleep o bd j).isSome) → k < maxRetries →
      o k = .err (.apiError m) → isTransientMsg m = true →
      (with_retry o maxRetries bd).sleeps.get? k = some (bd * 2 ^ k) ∧
      k + 2 ≤ (with_retry o maxRetries bd).calls) ∧
    ((∀ j, j ≤ maxRetries → (attemptSleep o bd j).isSome) →
      ∃ e, o maxRetries = .err e ∧
        (with_retry o maxRetries bd).result = .error e ∧
        (with_retry o maxRetries bd).calls = maxRetries + 1) ∧
    (∀ k e, (∀ j, j < k → (attemptSleep o bd j).isSome) → k ≤ maxRetries →
      o k = .err e → retrySleep e bd k = none →
      (with_retry o maxRetries bd).result = .error e ∧
      (with_retry o maxRetries bd).calls = k + 1 ∧
      (with_retry o maxRetries bd).sleeps.length = k) := by
  refine ⟨withRetryGo_calls_le o bd (maxRetries + 1) 0 none, ?_, ?_, ?_, ?_⟩
  · intro k w m hall hk hout
    have hsl : retrySleep (TgError.retryAfter w m) bd k = some (w + 1) := rfl
    obtain ⟨last2, heq, -, -⟩ :=
      withRetryGo_prefix o bd k (0 : Nat) (maxRetries + 1 - k) none
        (by intro j hj; simpa using hall j hj)
    have hfit : k + (maxRetries + 1 - k) = maxRetries + 1 := by omega
    unfold with_retry
    rw [← hfit, heq]
    have hf1 : maxRetries + 1 - k = (maxRetries - k - 1) + 1 + 1 := by omega
    rw [hf1, withRetryGo_sleep ((maxRetries - k - 1) + 1) last2 (by simpa using hout) (by simpa using hsl)]
    have hcalls := withRetryGo_calls_pos o bd (maxRetries - k - 1) (0 + k + 1) (some (TgError.retryAfter w m))
    have hlen : ((List.range k).map (fun j => (attemptSleep o bd (0 + j)).getD 0)).length = k := by
      simp
    refine ⟨?_, Nat.le_succ w, ?_⟩
    · rw [List.get?_append_right (by omega)]
      simp [hlen]
    · simp only [RetryTrace.calls]
      omega
  · intro k m hall hk hout htr
    have hsl : retrySleep (TgError.apiError m) bd k = some (bd * 2 ^ k) := by
      simp [retrySleep, htr]
    obtain ⟨last2, heq, -, -⟩ :=
      withRetryGo_prefix o bd k (0 : Nat) (maxRetries + 1 - k) none
        (by intro j hj; simpa using hall j hj)
    have hfit : k + (maxRetries + 1 - k) = maxRetries + 1 := by omega
    unfold with_retry
    rw [← hfit, heq]
    have hf1 : maxRetries + 1 - k = (maxRetries - k - 1) + 1 + 1 := by omega
    rw [hf1, withRetryGo_sleep ((maxRetries - k - 1) + 1) last2 (by simpa using hout)
      (by simpa using hsl)]
    have hcalls := withRetryGo_calls_pos o bd (maxRetries - k - 1) (0 + k + 1) (some (TgError.apiError m))
    have hlen : ((List.range k).map (fun j => (attemptSleep o bd (0 + j)).getD 0)).length = k := by
      simp
    refine ⟨?_, ?_⟩
    · rw [List.get?_append_right (by omega)]
      simp [hlen]
    · simp only [RetryTrace.calls]
      omega
  · intro hall
    obtain ⟨last2, heq, -, hpos⟩ :=
      withRetryGo_prefix o bd (maxRetries + 1) (0 : Nat) 0 none
        (by intro j hj; simpa using hall j (by omega))
    obtain ⟨e, he, hl2⟩ := hpos (by omega)
    refine ⟨e, by simpa using he, ?_, ?_⟩
    · unfold with_retry
      rw [show maxRetries + 1 = (maxRetries + 1) + 0 by omega, heq, hl2]
      simp [withRetryGo]
    · unfold with_retry
      rw [show maxRetries + 1 = (maxRetries + 1) + 0 by omega, heq, hl2]
      simp [withRetryGo]
  · intro k e hall hk hout hperm
    obtain ⟨last2, heq, -, -⟩ :=
      withRetryGo_prefix o bd k (0 : Nat) (maxRetries + 1 - k) none
        (by intro j hj; simpa using hall j hj)
    have hfit : k + (maxRetries + 1 - k) = maxRetries + 1 := by omega
    have hf1 : maxRetries + 1 - k = (maxRetries - k) + 1 := by omega
    unfold with_retry
    rw [← hfit, heq, hf1,
      withRetryGo_stop (maxRetries - k) last2 (by simpa using hout) (by simpa using hperm)]
    refine ⟨rfl, ?_, ?_⟩
    · simp only [RetryTrace.calls]
      omega
    · simp [RetryTrace.sleeps]

theorem with_retry_contract_witness :
    (with_retry retryWitnessOutcomes 3 1).sleeps.get? 0 = some 6 ∧
    0 + 2 ≤ (with_retry retryWitnessOutcomes 3 1).calls := by
  have h := (with_retry_contract retryWitnessOutcomes 3 1).2.1 0 5
    "Flood control exceeded" (fun j hj => absurd hj (Nat.not_lt_zero j))
    (by omega) rfl
  exact ⟨h.1, h.2.2⟩

/-! ### Placement list lemmas -/

theorem filter_map_keyed (f : Placement → Placement) (K Q : Placement → Bool)
    (hfix : ∀ p, K p = false → f p = p)
    (hQ : ∀ p, K p = true → Q p = false ∧ Q (f p) = false) :
    ∀ l : List Placement, (l.map f).filter Q = l.filter Q
  | [] => rfl
  | a :: l => by
    have ih := filter_map_keyed f K Q hfix hQ l
    cases hK : K a with
    | false => simp [List.filter_cons, hfix a hK, ih]
    | true =>
      obtain ⟨h1, h2⟩ := hQ a hK
      simp [List.filter_cons, h1, h2, ih]

theorem filterMap_map_keyed {β : Type} (f : Placement → Placement)
    (K : Placement → Bool) (g : Placement → Option β)
    (hfix : ∀ p, K p = false → f p = p)
    (hg : ∀ p, K p = true → g p = none ∧ g (f p) = none) :
    ∀ l : List Placement, (l.map f).filterMap g = l.filterMap g
  | [] => rfl
  | a :: l => by
    have ih := filterMap_map_keyed f K g hfix hg l
    cases hK : K a with
    | false => simp [List.filterMap_cons, hfix a hK, ih]
    | true =>
      obtain ⟨h1, h2⟩ := hg a hK
      simp [List.filterMap_cons, h1, h2, ih]

theorem markOldF_key (chId slId n1 : Nat) (q : Placement) :
    (markOldF chId slId n1 q).channelId = q.channelId ∧
    (markOldF chId slId n1 q).slotId = q.slotId := by
  unfold markOldF
  split <;> simp

theorem upsertFields_key (slot : Slot) (creative : AdCreative) (m n2 : Nat)
    (q : Placement) :
    (upsertFields slot creative m n2 q).channelId = q.channelId ∧
    (upsertFields slot creative m n2 q).slotId = q.slotId := by
  simp [upsertFields]

theorem upsertApply_key (slot : Slot) (creative : AdCreative) (m n2 chId : Nat)
    (q : Placement) :
    (upsertApply slot creative m n2 chId q).channelId = q.channelId ∧
    (upsertApply slot creative m n2 chId q).slotId = q.slotId := by
  unfold upsertApply
  split
  · exact upsertFields_key slot creative m n2 q
  · simp

theorem placementKeyB_of_key_eq {f : Placement → Placement}
    (hkey : ∀ q, (f q).channelId = q.channelId ∧ (f q).slotId = q.slotId)
    (chId slId : Nat) (q : Placement) :
    placementKeyB chId slId (f q) = placementKeyB chId slId q := by
  unfold placementKeyB
  rw [(hkey q).1, (hkey q).2]

theorem pairwise_keyDistinct_map (l : List Placement) (f : Placement → Placement)
    (hkey : ∀ q, (f q).channelId = q.channelId ∧ (f q).slotId = q.slotId)
    (h : l.Pairwise keyDistinct) : (l.map f).Pairwise keyDistinct := by
  rw [List.pairwise_map]
  refine h.imp ?_
  intro a b hab hc
  exact hab ⟨((hkey a).1).symm.trans (hc.1.trans (hkey b).1),
    ((hkey a).2).symm.trans (hc.2.trans (hkey b).2)⟩

theorem mem_of_markOld_active (l : List Placement) (chId slId n1 : Nat)
    (p : Placement) (hp : p ∈ l.map (markOldF chId slId n1))
    (hact : p.deletedAt = none) : p ∈ l := by
  obtain ⟨q, hq, hfq⟩ := List.mem_map.mp hp
  by_cases hc : (placementKeyB chId slId q && q.messageId.isSome && q.deletedAt.isNone) = true
  · rw [← hfq] at hact
    simp [markOldF, hc] at hact
  · have : markOldF chId slId n1 q = q := by simp [markOldF, hc]
    rw [← hfq, this]
    exact hq

theorem matchingRows_short (st : DbState) (chId slId : Nat) (h : PairUnique st) :
    matchingRows st chId slId = [] ∨ ∃ p, matchingRows st chId slId = [p] := by
  have hsub : (matchingRows st chId slId).Pairwise keyDistinct :=
    List.Pairwise.sublist (List.filter_sublist _) h
  rcases hm : matchingRows st chId slId with - | ⟨p, - | ⟨q, rest⟩⟩
  · exact Or.inl rfl
  · exact Or.inr ⟨p, rfl⟩
  · exfalso
    rw [hm] at hsub
    have hpq : keyDistinct p q := (List.pairwise_cons.mp hsub).1 q (by simp)
    have hp : p ∈ matchingRows st chId slId := by rw [hm]; simp
    have hq : q ∈ matchingRows st chId slId := by rw [hm]; simp
    have hp2 := (List.mem_filter.mp hp).2
    have hq2 := (List.mem_filter.mp hq).2
    simp [placementKeyB] at hp2 hq2
    exact hpq ⟨hp2.1.trans hq2.1.symm, hp2.2.trans hq2.2.symm⟩

/-! ### Reconciler step characterisation -/

theorem publish_eq_none_err (st : DbState) (slot : Slot) (creative : AdCreative)
    (channel : Channel) (e : PyErr) (now1 now2 : Nat)
    (hm : matchingRows st channel.id slot.id = []) :
    publish_to_channel_with_dedup st slot creative channel (.error e) now1 now2 =
      .ok { st with logs := st.logs ++ [mkPublishLog slot creative channel (.error e)] } := by
  unfold publish_to_channel_with_dedup
  rw [hm]

theorem publish_eq_none_ok (st : DbState) (slot : Slot) (creative : AdCreative)
    (channel : Channel) (m now1 now2 : Nat)
    (hm : matchingRows st channel.id slot.id = []) :
    publish_to_channel_with_dedup st slot creative channel (.ok m) now1 now2 =
      .ok ⟨st.placements ++ [upsertFields slot creative m now2 (newPlacement channel.id slot.id)],
           st.logs ++ [mkPublishLog slot creative channel (.ok m)]⟩ := by
  unfold publish_to_channel_with_dedup
  rw [hm]

theorem publish_eq_one_err (st : DbState) (slot : Slot) (creative : AdCreative)
    (channel : Channel) (e : PyErr) (now1 now2 : Nat) (p0 : Placement)
    (hm : matchingRows st channel.id slot.id = [p0]) :
    publish_to_channel_with_dedup st slot creative channel (.error e) now1 now2 =
      .ok ⟨st.placements.map (markOldF channel.id slot.id now1),
           st.logs ++ [mkPublishLog slot creative channel (.error e)]⟩ := by
  unfold publish_to_channel_with_dedup
  rw [hm]

theorem publish_eq_one_ok (st : DbState) (slot : Slot) (creative : AdCreative)
    (channel : Channel) (m now1 now2 : Nat) (p0 : Placement)
    (hm : matchingRows st channel.id slot.id = [p0]) :
    publish_to_channel_with_dedup st slot creative channel (.ok m) now1 now2 =
      .ok ⟨(st.placements.map (markOldF channel.id slot.id now1)).map
              (upsertApply slot creative m now2 channel.id),
           st.logs ++ [mkPublishLog slot creative channel (.ok m)]⟩ := by
  unfold publish_to_channel_with_dedup
  rw [hm]

/-- Full characterisation of one reconciler step under the uniqueness
invariant: it succeeds, appends exactly the expected audit row, preserves
the invariant, leaves rows of every other (channel, slot) key untouched
(stated for row filters and row extractions vanishing on the touched key),
and on publish failure creates no new active row. -/
theorem publish_spec (st : DbState) (slot : Slot) (creative : AdCreative)
    (channel : Channel) (pub : Except PyErr Nat) (now1 now2 : Nat)
    (h : PairUnique st) :
    ∃ st', publish_to_channel_with_dedup st slot creative channel pub now1 now2 = .ok st' ∧
      st'.logs = st.logs ++ [mkPublishLog slot creative channel pub] ∧
      PairUnique st' ∧
      (∀ Q : Placement → Bool,
        (∀ p, placementKeyB channel.id slot.id p = true → Q p = false) →
        st'.placements.filter Q = st.placements.filter Q) ∧
      (∀ {β : Type} (g : Placement → Option β),
        (∀ p, placementKeyB channel.id slot.id p = true → g p = none) →
        st'.placements.filterMap g = st.placements.filterMap g) ∧
      (∀ e, pub = .error e →
        ∀ p, p ∈ st'.placements → p.deletedAt = none → p ∈ st.placements) := by
  have hmark_key := markOldF_key channel.id slot.id now1
  have hupd_key := upsertApply_key slot creative
  rcases matchingRows_short st channel.id slot.id h with hm | ⟨p0, hm⟩
  · cases pub with
    | error e =>
      refine ⟨_, publish_eq_none_err st slot creative channel e now1 now2 hm, rfl, h, ?_, ?_, ?_⟩
      · intro Q _; rfl
      · intro β g _; rfl
      · intro e2 _ p hp _; exact hp
    | ok m =>
      refine ⟨_, publish_eq_none_ok st slot creative channel m now1 now2 hm, rfl, ?_, ?_, ?_, ?_⟩
      · -- PairUnique: appended row's key has no occupant in st
        unfold PairUnique at *
        rw [List.pairwise_append]
        refine ⟨h, List.pairwise_singleton _ _, ?_⟩
        intro p hp r hr
        simp only [List.mem_singleton] at hr
        subst hr
        intro hc
        have hkeyr := upsertFields_key slot creative m now2 (newPlacement channel.id slot.id)
        have hpk : placementKeyB channel.id slot.id p = true := by
          unfold placementKeyB
          have h1 : p.channelId = channel.id := by
            rw [hc.1, hkeyr.1]; rfl
          have h2 : p.slotId = slot.id := by
            rw [hc.2, hkeyr.2]; rfl
          simp [h1, h2]
        have : p ∈ matchingRows st channel.id slot.id :=
          List.mem_filter.mpr ⟨hp, hpk⟩
        rw [hm] at this
        simp at this
      · intro Q hQ
        rw [List.filter_append]
        have hrow : Q (upsertFields slot creative m now2 (newPlacement channel.id slot.id)) = false := by
          apply hQ
          have hkeyr := upsertFields_key slot creative m now2 (newPlacement channel.id slot.id)
          unfold placementKeyB
          rw [hkeyr.1, hkeyr.2]
          simp [newPlacement]
        simp [List.filter_cons, hrow]
      · intro β g hg
        rw [List.filterMap_append]
        have hrow : g (upsertFields slot creative m now2 (newPlacement channel.id slot.id)) = none := by
          apply hg
          have hkeyr := upsertFields_key slot creative m now2 (newPlacement channel.id slot.id)
          unfold placementKeyB
          rw [hkeyr.1, hkeyr.2]
          simp [newPlacement]
        simp [List.filterMap_cons, hrow]
      · intro e2 he2; cases he2
  · cases pub with
    | error e =>
      refine ⟨_, publish_eq_one_err st slot creative channel e now1 now2 p0 hm, rfl, ?_, ?_, ?_, ?_⟩
      · exact pairwise_keyDistinct_map _ _ hmark_key h
      · intro Q hQ
        refine filter_map_keyed _ (placementKeyB channel.id slot.id) Q ?_ ?_ _
        · intro p hK
          simp [markOldF, hK]
        · intro p hK
          refine ⟨hQ p hK, hQ _ ?_⟩
          rw [placementKeyB_of_key_eq hmark_key]
          exact hK
      · intro β g hg
        refine filterMap_map_keyed _ (placementKeyB channel.id slot.id) g ?_ ?_ _
        · intro p hK
          simp [markOldF, hK]
        · intro p hK
          refine ⟨hg p hK, hg _ ?_⟩
          rw [placementKeyB_of_key_eq hmark_key]
          exact hK
      · intro e2 _ p hp hact
        exact mem_of_markOld_active _ _ _ _ _ hp hact
    | ok m =>
      refine ⟨_, publish_eq_one_ok st slot creative channel m now1 now2 p0 hm, rfl, ?_, ?_, ?_, ?_⟩
      · exact pairwise_keyDistinct_map _ _ (hupd_key m now2 channel.id)
          (pairwise_keyDistinct_map _ _ hmark_key h)
      · intro Q hQ
        have step2 := filter_map_keyed (upsertApply slot creative m now2 channel.id)
          (placementKeyB channel.id slot.id) Q ?_ ?_
          (st.placements.map (markOldF channel.id slot.id now1))
        · rw [step2]
          refine filter_map_keyed _ (placementKeyB channel.id slot.id) Q ?_ ?_ _
          · intro p hK
            simp [markOldF, hK]
          · intro p hK
            refine ⟨hQ p hK, hQ _ ?_⟩
            rw [placementKeyB_of_key_eq hmark_key]
            exact hK
        · intro p hK
          simp [upsertApply, hK]
        · intro p hK
          refine ⟨hQ p hK, hQ _ ?_⟩
          rw [placementKeyB_of_key_eq (hupd_key m now2 channel.id)]
          exact hK
      · intro β g hg
        have step2 := filterMap_map_keyed (upsertApply slot creative m now2 channel.id)
          (placementKeyB channel.id slot.id) g ?_ ?_
          (st.placements.map (markOldF channel.id slot.id now1))
        · rw [step2]
          refine filterMap_map_keyed _ (placementKeyB channel.id slot.id) g ?_ ?_ _
          · intro p hK
            simp [markOldF, hK]
          · intro p hK
            refine ⟨hg p hK, hg _ ?_⟩
            rw [placementKeyB_of_key_eq hmark_key]
            exact hK
        · intro p hK
          simp [upsertApply, hK]
        · intro p hK
          refine ⟨hg p hK, hg _ ?_⟩
          rw [placementKeyB_of_key_eq (hupd_key m now2 channel.id)]
          exact hK
      · intro e2 he2; cases he2

theorem activeUnique_of_pairUnique {st : DbState} (h : PairUnique st) :
    ActiveUnique st :=
  h.imp (fun hab hc => hab ⟨hc.1, hc.2.1⟩)

/-- C1: for every (channel, slot) pair at most one placement row is active
(`deleted_at = null`), and every operation that creates or updates
placements — the publish reconciliation step, the clear route, the
unit-deletion route — preserves the invariant (together with the stronger
one-row-per-pair invariant of the unique index it follows from). -/
theorem placement_active_invariant_preserved (st : DbState) (h : PairUnique st) :
    ActiveUnique st ∧
    (∀ slot creative channel pub now1 now2 st',
      publish_to_channel_with_dedup st slot creative channel pub now1 now2 = .ok st' →
      PairUnique st' ∧ ActiveUnique st') ∧
    (∀ channels slotId now,
      PairUnique (clear_slot st channels slotId now).1 ∧
      ActiveUnique (clear_slot st channels slotId now).1) ∧
    (∀ channels slotId,
      PairUnique (delete_slot_route st channels slotId).1 ∧
      ActiveUnique (delete_slot_route st channels slotId).1) := by
  refine ⟨activeUnique_of_pairUnique h, ?_, ?_, ?_⟩
  · intro slot creative channel pub now1 now2 st' heq
    obtain ⟨st2, heq2, -, hpu2, -, -, -⟩ :=
      publish_spec st slot creative channel pub now1 now2 h
    rw [heq] at heq2
    cases heq2
    exact ⟨hpu2, activeUnique_of_pairUnique hpu2⟩
  · intro channels slotId now
    have hpu : PairUnique (clear_slot st channels slotId now).1 := by
      unfold clear_slot PairUnique
      refine pairwise_keyDistinct_map _ _ ?_ h
      intro q
      split <;> simp
    exact ⟨hpu, activeUnique_of_pairUnique hpu⟩
  · intro channels slotId
    have hpu : PairUnique (delete_slot_route st channels slotId).1 := by
      unfold delete_slot_route PairUnique
      exact List.Pairwise.sublist (List.filter_sublist _) h
    exact ⟨hpu, activeUnique_of_pairUnique hpu⟩

theorem placement_active_invariant_preserved_witness :
    ActiveUnique (clear_slot
      ⟨[⟨1, 1, some 1, some 10, true, some 0, none, none⟩,
        ⟨2, 1, some 2, some 11, true, some 0, none, none⟩], []⟩
      [⟨1, 5, "active"⟩, ⟨2, 6, "active"⟩] 1 99).1 := by
  have h := placement_active_invariant_preserved
    ⟨[⟨1, 1, some 1, some 10, true, some 0, none, none⟩,
      ⟨2, 1, some 2, some 11, true, some 0, none, none⟩], []⟩
    (by unfold PairUnique keyDistinct; simp)
  exact (h.2.2.1 [⟨1, 5, "active"⟩, ⟨2, 6, "active"⟩] 1 99).2

/-- One pass of `execute_fixed_slot` under the uniqueness invariant: the
whole channel list is processed and exactly one audit row is appended per
channel, with the per-channel publish outcome. -/
theorem execute_fixed_spec (slot : Slot) (creative : AdCreative)
    (pubs : Channel → Except PyErr Nat) (now1 now2 : Nat) :
    ∀ (channels : List Channel) (st : DbState), PairUnique st →
      ∃ st', execute_fixed_slot st slot creative pubs now1 now2 channels = .ok st' ∧
        PairUnique st' ∧
        st'.logs = st.logs ++ channels.map (fun ch => mkPublishLog slot creative ch (pubs ch))
  | [], st, h => ⟨st, rfl, h, by simp [execute_fixed_slot]⟩
  | ch :: rest, st, h => by
    obtain ⟨st1, heq1, hlogs1, hpu1, -, -, -⟩ :=
      publish_spec st slot creative ch (pubs ch) now1 now2 h
    obtain ⟨st', heq', hpu', hlogs'⟩ :=
      execute_fixed_spec slot creative pubs now1 now2 rest st1 hpu1
    refine ⟨st', ?_, hpu', ?_⟩
    · simp only [execute_fixed_slot, heq1, Except.bind]
      simpa using heq'
    · rw [hlogs', hlogs1]
      simp

/-- C5: within one cycle, a publish failure for one destination is caught,
recorded as a failed audit row carrying the unit, destination, content and
error text, and the remaining destinations are still processed (one audit
row per destination of the cycle). -/
theorem publish_failure_isolated (st : DbState) (slot : Slot)
    (creative : AdCreative) (channels : List Channel)
    (pubs : Channel → Except PyErr Nat) (now1 now2 : Nat) (chF : Channel)
    (e : PyErr) (h : PairUnique st) (hmem : chF ∈ channels)
    (hfail : pubs chF = .error e) :
    ∃ st', execute_fixed_slot st slot creative pubs now1 now2 channels = .ok st' ∧
      st'.logs = st.logs ++ channels.map (fun ch => mkPublishLog slot creative ch (pubs ch)) ∧
      (⟨"publish", some chF.id, some slot.id, some creative.id, none, "failed",
        some e.msg⟩ : OperationLog) ∈ st'.logs ∧
      st'.logs.length = st.logs.length + channels.length := by
  obtain ⟨st', heq, hpu, hlogs⟩ := execute_fixed_spec slot creative pubs now1 now2 channels st h
  refine ⟨st', heq, hlogs, ?_, ?_⟩
  · rw [hlogs]
    refine List.mem_append_right _ ?_
    have : mkPublishLog slot creative chF (pubs chF) =
        ⟨"publish", some chF.id, some slot.id, some creative.id, none, "failed",
          some e.msg⟩ := by
      rw [hfail]
      rfl
    rw [← this]
    exact List.mem_map_of_mem _ hmem
  · rw [hlogs]
    simp

theorem publish_failure_isolated_witness :
    ∃ st', execute_fixed_slot ⟨[], []⟩ slotW creativeW pubsW 5 6 [chanA, chanB] = .ok st' ∧
      st'.logs.length = 0 + 2 := by
  obtain ⟨st', heq, -, -, hlen⟩ := publish_failure_isolated ⟨[], []⟩ slotW creativeW
    [chanA, chanB] pubsW 5 6 chanA (.tg (.apiError "chat not found"))
    (by unfold PairUnique; simp) (by simp) rfl
  exact ⟨st', heq, by simpa using hlen⟩

/-- C3 (code bug): after a successful Gateway send, the publisher executes
`pin_ok, pin_error_message = await pin_message_safe(...)`, but
`pin_message_safe` returns a single `Bool`, so unpacking raises `TypeError`;
the reconciler then records a FAILED audit row and performs no upsert (no
new active placement row appears), contradicting the claimed
content/message/pinned/published_at/scheduled_delete_at field writes. -/
theorem publish_success_never_upserts (sendOutcomes : Nat → Outcome Nat)
    (pinOutcomes : Nat → Outcome Unit) (m : Nat) (b : Bool)
    (hsend : (with_retry sendOutcomes DEFAULT_MAX_RETRIES DEFAULT_BASE_DELAY).result
      = .ok (some m))
    (hpin : pin_message_safe pinOutcomes = .ok b) :
    publish_creative_to_channel sendOutcomes pinOutcomes = .error .typeError ∧
    (∀ st slot creative channel now1 now2, PairUnique st →
      ∃ st', publish_to_channel_with_dedup st slot creative channel
          (.error .typeError) now1 now2 = .ok st' ∧
        st'.logs = st.logs ++
          [⟨"publish", some channel.id, some slot.id, some creative.id, none,
            "failed", some PyErr.typeError.msg⟩] ∧
        ∀ p, p ∈ st'.placements → p.deletedAt = none → p ∈ st.placements) := by
  constructor
  · unfold publish_creative_to_channel
    rw [hsend, hpin]
  · intro st slot creative channel now1 now2 h
    obtain ⟨st', heq, hlogs, -, -, -, hmono⟩ :=
      publish_spec st slot creative channel (.error .typeError) now1 now2 h
    exact ⟨st', heq, hlogs, hmono PyErr.typeError rfl⟩

theorem publish_success_never_upserts_witness :
    publish_creative_to_channel (fun _ => .ok 100) (fun _ => .ok ()) =
      .error .typeError ∧
    ∃ st', publish_to_channel_with_dedup ⟨[], []⟩ slotW creativeW chanB
        (.error .typeError) 5 6 = .ok st' ∧
      st'.logs = [⟨"publish", some chanB.id, some slotW.id, some creativeW.id,
        none, "failed", some PyErr.typeError.msg⟩] := by
  have h := publish_success_never_upserts (fun _ => .ok 100) (fun _ => .ok ())
    100 true rfl rfl
  obtain ⟨st', heq, hlogs, -⟩ := h.2 ⟨[], []⟩ slotW creativeW chanB 5 6
    (by unfold PairUnique; simp)
  exact ⟨h.1, st', heq, by simpa using hlogs⟩

/-- C6 (code bug evaluated on its failing input): `delete_message_safe`
converts a "message to delete not found" permanent error into a successful
no-op as documented, but `unpin_message_safe` returns `false` — a failure
report — when the platform answers "message is not pinned", although its
own docstring promises `True` in that case. -/
theorem delete_unpin_idempotence_evaluated :
    delete_message_safe
      (fun _ => .err (.apiError "Bad Request: message to delete not found")) =
      .ok true ∧
    unpin_message_safe
      (fun _ => .err (.apiError "Bad Request: message is not pinned")) =
      .ok false := by
  constructor
  · rfl
  · rfl

/-- C9: the day permutation of a random-mode unit depends only on the
calendar-date component of the clock reading, the unit id and the pool:
two selection runs on the same date — at any two times of day, over any
number of invocations — produce the identical permutation, whatever the
hash and shuffle functions compute. -/
theorem random_permutation_date_deterministic (md5seed : String → Nat)
    (shuffle : Nat → List AdCreative → List AdCreative)
    (now1 now2 : PyDateTime) (slotId : Nat) (pool : List AdCreative)
    (h : now1.date = now2.date) :
    shuffledCreatives md5seed shuffle now1 slotId pool =
      shuffledCreatives md5seed shuffle now2 slotId pool := by
  unfold shuffledCreatives
  rw [h]

theorem random_permutation_date_deterministic_witness :
    shuffledCreatives (fun s => s.length) (fun n l => if n % 2 = 0 then l.reverse else l)
      ⟨"2026-10-12", "08:00:00"⟩ 3 [creativeW] =
    shuffledCreatives (fun s => s.length) (fun n l => if n % 2 = 0 then l.reverse else l)
      ⟨"2026-10-12", "21:45:09"⟩ 3 [creativeW] :=
  random_permutation_date_deterministic (fun s => s.length)
    (fun n l => if n % 2 = 0 then l.reverse else l)
    ⟨"2026-10-12", "08:00:00"⟩ ⟨"2026-10-12", "21:45:09"⟩ 3 [creativeW] rfl

/-! ### Rotation walk lemmas -/

theorem favFrom_some (creatives : List AdCreative) (act : List Nat) (off : Nat) :
    ∀ (count i : Nat) (c : AdCreative), favFrom creatives act off count i = some c →
      ∃ j, j < count ∧
        creatives.get? ((off + i + j) % creatives.length) = some c ∧
        c.id ∉ act ∧
        ∀ m, m < j → ∃ d,
          creatives.get? ((off + i + m) % creatives.length) = some d ∧ d.id ∈ act
  | 0, i, c => by intro h; exact absurd h (by simp [favFrom])
  | count + 1, i, c => by
    intro h
    unfold favFrom at h
    cases hget : creatives.get? ((off + i) % creatives.length) with
    | none => rw [hget] at h; exact absurd h (by simp)
    | some c0 =>
      rw [hget] at h
      dsimp only at h
      by_cases hmem : act.contains c0.id = true
      · rw [if_pos hmem] at h
        obtain ⟨j, hj, hgetj, hnotin, hall⟩ := favFrom_some creatives act off count (i + 1) c h
        refine ⟨j + 1, by omega, ?_, hnotin, ?_⟩
        · have : off + i + (j + 1) = off + (i + 1) + j := by omega
          rw [this]
          exact hgetj
        · intro m hm
          cases m with
          | zero =>
            refine ⟨c0, by simpa using hget, ?_⟩
            exact List.elem_iff.mp hmem
          | succ m =>
            obtain ⟨d, hd, hdin⟩ := hall m (by omega)
            refine ⟨d, ?_, hdin⟩
            have : off + i + (m + 1) = off + (i + 1) + m := by omega
            rw [this]
            exact hd
      · rw [if_neg hmem] at h
        cases h
        refine ⟨0, by omega, by simpa using hget, ?_, by intro m hm; omega⟩
        intro hin
        exact hmem (List.elem_iff.mpr hin)

theorem favFrom_none (creatives : List AdCreative) (act : List Nat) (off : Nat) :
    ∀ (count i : Nat), favFrom creatives act off count i = none →
      creatives ≠ [] →
      ∀ j, j < count → ∃ d,
        creatives.get? ((off + i + j) % creatives.length) = some d ∧ d.id ∈ act
  | 0, i => by intro _ _ j hj; omega
  | count + 1, i => by
    intro h hne j hj
    unfold favFrom at h
    cases hget : creatives.get? ((off + i) % creatives.length) with
    | none =>
      exfalso
      have hlen : 0 < creatives.length := List.length_pos.mpr hne
      have : (off + i) % creatives.length < creatives.length := Nat.mod_lt _ hlen
      rw [List.get?_eq_none] at hget
      omega
    | some c0 =>
      rw [hget] at h
      dsimp only at h
      by_cases hmem : act.contains c0.id = true
      · rw [if_pos hmem] at h
        cases j with
        | zero =>
          refine ⟨c0, by simpa using hget, List.elem_iff.mp hmem⟩
        | succ j =>
          obtain ⟨d, hd, hdin⟩ := favFrom_none creatives act off count (i + 1) h hne j (by omega)
          refine ⟨d, ?_, hdin⟩
          have : off + (i + 1) + j = off + i + (j + 1) := by omega
          rw [← this]
          exact hd
      · rw [if_neg hmem] at h
        cases h

/-- The cyclic walk of length `len` starting anywhere visits every index. -/
theorem cycle_hits (off idx len : Nat) (hlen : 0 < len) (hidx : idx < len) :
    ∃ j, j < len ∧ (off + j) % len = idx := by
  refine ⟨(idx + len - off % len) % len, Nat.mod_lt _ hlen, ?_⟩
  have hr : off % len < len := Nat.mod_lt _ hlen
  have hml : off % len ≤ off := Nat.mod_le _ _
  have key : (off + (idx + len - off % len)) % len = idx := by
    have h1 : off + (idx + len - off % len) = idx + (off / len + 1) * len := by
      have := Nat.div_add_mod off len
      have hexp : (off / len + 1) * len = len * (off / len) + len := by ring
      omega
    rw [h1, Nat.add_mul_mod_self_right]
    exact Nat.mod_eq_of_lt hidx
  calc (off + (idx + len - off % len) % len) % len
      = (off % len + (idx + len - off % len) % len % len) % len := by
        rw [← Nat.add_mod]
    _ = (off % len + (idx + len - off % len) % len) % len := by
        rw [Nat.mod_mod_of_dvd _ (dvd_refl len)]
    _ = (off + (idx + len - off % len)) % len := by
        rw [← Nat.add_mod]
    _ = idx := key

/-- Soundness of `find_available_creative`: a returned creative is the
first-fit item of the rotation walk among those not active in other slots
of the channel. -/
theorem find_available_some (placements : List Placement) (chId slId : Nat)
    (creatives : List AdCreative) (offset : Nat) (c : AdCreative)
    (h : find_available_creative placements chId slId creatives offset = some c) :
    FirstFit creatives (activeOtherCreativeIds placements chId slId) offset c := by
  obtain ⟨j, hj, hget, hnotin, hall⟩ :=
    favFrom_some creatives (activeOtherCreativeIds placements chId slId) offset
      creatives.length 0 c h
  refine ⟨j, hj, ?_, hnotin, ?_⟩
  · simpa using hget
  · intro m hm
    obtain ⟨d, hd, hdin⟩ := hall m hm
    exact ⟨d, by simpa using hd, hdin⟩

/-- Completeness: when `find_available_creative` returns nothing, every
creative of the pool is currently active in another slot of the channel. -/
theorem find_available_none (placements : List Placement) (chId slId : Nat)
    (creatives : List AdCreative) (offset : Nat)
    (h : find_available_creative placements chId slId creatives offset = none) :
    ∀ c ∈ creatives, c.id ∈ activeOtherCreativeIds placements chId slId := by
  intro c hc
  have hne : creatives ≠ [] := by
    intro he
    rw [he] at hc
    simp at hc
  have hlen : 0 < creatives.length := List.length_pos.mpr hne
  obtain ⟨idx, hidx⟩ := List.mem_iff_get?.mp hc
  have hidxlt : idx < creatives.length := by
    by_contra hge
    rw [List.get?_eq_none.mpr (by omega)] at hidx
    cases hidx
  obtain ⟨j, hjlt, hjeq⟩ := cycle_hits offset idx creatives.length hlen hidxlt
  obtain ⟨d, hd, hdin⟩ := favFrom_none creatives
    (activeOtherCreativeIds placements chId slId) offset creatives.length 0 h hne j hjlt
  rw [Nat.add_zero] at hd
  rw [hjeq, hidx] at hd
  cases hd
  exact hdin

theorem exceptBind_ok {ε α β : Type} (a : α) (f : α → Except ε β) :
    (Except.ok a >>= f : Except ε β) = f a := rfl

/-- Full characterisation of the random-slot channel loop under the
uniqueness invariant, for an arbitrary start index `i` of `enumerate`:
the loop succeeds, produces one decision per channel, leaves other-slot
rows (hence each channel's cross-slot exclusion set) untouched, and each
chosen creative is the first-fit of the walk starting at
`rotation_offset + i + k` for the `k`-th channel; a skipped channel has its
whole pool excluded and its (channel, slot) rows unchanged. -/
theorem random_go_spec (slot : Slot) (shuffled : List AdCreative)
    (pubs : Channel → Except PyErr Nat) (now1 now2 : Nat) :
    ∀ (channels : List Channel) (st : DbState) (i : Nat), PairUnique st →
      (channels.map (fun c => c.id)).Nodup →
      ∃ stF ds,
        execute_random_slot_go slot shuffled pubs now1 now2 st channels i = .ok (stF, ds) ∧
        PairUnique stF ∧
        ds.length = channels.length ∧
        (∀ chId, activeOtherCreativeIds stF.placements chId slot.id =
          activeOtherCreativeIds st.placements chId slot.id) ∧
        (∀ chId, chId ∉ channels.map (fun c => c.id) →
          matchingRows stF chId slot.id = matchingRows st chId slot.id) ∧
        (∀ k ch, channels.get? k = some ch →
          ∃ sel, ds.get? k = some (ch, sel) ∧
            (sel = none →
              (∀ c ∈ shuffled, c.id ∈ activeOtherCreativeIds st.placements ch.id slot.id) ∧
              matchingRows stF ch.id slot.id = matchingRows st ch.id slot.id) ∧
            (∀ c, sel = some c →
              FirstFit shuffled (activeOtherCreativeIds st.placements ch.id slot.id)
                (slot.rotationOffset + i + k) c))
  | [], st, i, h, hnd =>
    ⟨st, [], rfl, h, rfl, fun _ => rfl, fun _ _ => rfl, by intro k ch hk; simp at hk⟩
  | ch :: rest, st, i, h, hnd => by
    have hndr : (rest.map (fun c => c.id)).Nodup := (List.nodup_cons.mp (by simpa using hnd)).2
    have hchnotin : ch.id ∉ rest.map (fun c => c.id) := (List.nodup_cons.mp (by simpa using hnd)).1
    cases hsel : find_available_creative st.placements ch.id slot.id shuffled
        (slot.rotationOffset + i) with
    | some c =>
      obtain ⟨stMid, heqP, -, hpuM, hfq, hfg, -⟩ := publish_spec st slot c ch (pubs ch) now1 now2 h
      have hao : ∀ chId, activeOtherCreativeIds stMid.placements chId slot.id =
          activeOtherCreativeIds st.placements chId slot.id := by
        intro chId
        unfold activeOtherCreativeIds
        apply hfg
        intro p hk
        have h2 : p.slotId = slot.id := by
          unfold placementKeyB at hk
          simp at hk
          exact hk.2
        simp [h2]
      have hmr : ∀ chId, chId ≠ ch.id →
          matchingRows stMid chId slot.id = matchingRows st chId slot.id := by
        intro chId hne
        unfold matchingRows
        apply hfq
        intro p hk
        unfold placementKeyB at hk ⊢
        simp at hk
        simp [hk.1, hk.2]
        intro hE
        exact absurd hE.symm hne
      obtain ⟨stF, ds, heqR, hpuF, hdslen, haoR, hmrR, hper⟩ :=
        random_go_spec slot shuffled pubs now1 now2 rest stMid (i + 1) hpuM hndr
      refine ⟨stF, (ch, some c) :: ds, ?_, hpuF, by simp [hdslen], ?_, ?_, ?_⟩
      · simp only [execute_random_slot_go, hsel, heqP, exceptBind_ok, heqR]
      · intro chId
        rw [haoR chId, hao chId]
      · intro chId hnotin
        simp only [List.map_cons, List.mem_cons, not_or] at hnotin
        rw [hmrR chId (by simpa using hnotin.2), hmr chId hnotin.1]
      · intro k ch' hk'
        cases k with
        | zero =>
          simp only [List.get?] at hk'
          cases hk'
          refine ⟨some c, rfl, ?_, ?_⟩
          · intro hnone
            exact absurd hnone (by simp)
          · intro c' hc'
            have hcc : c' = c := by
              injection hc' with hc2
              exact hc2.symm
            subst hcc
            rw [Nat.add_zero]
            exact find_available_some st.placements ch.id slot.id shuffled
              (slot.rotationOffset + i) c' hsel
        | succ k =>
          simp only [List.get?] at hk'
          obtain ⟨sel, hds, hskip, hfit⟩ := hper k ch' hk'
          refine ⟨sel, by simpa using hds, ?_, ?_⟩
          · intro hnone
            obtain ⟨hexcl, hrows⟩ := hskip hnone
            have hne : ch'.id ≠ ch.id := by
              intro hE
              apply hchnotin
              rw [← hE]
              exact List.mem_map_of_mem _ (List.get?_mem hk')
            refine ⟨?_, ?_⟩
            · intro c2 hc2
              have := hexcl c2 hc2
              rwa [hao ch'.id] at this
            · rw [hrows, hmr ch'.id hne]
          · intro c2 hc2
            have hres := hfit c2 hc2
            rw [hao ch'.id] at hres
            have harith : slot.rotationOffset + (i + 1) + k = slot.rotationOffset + i + (k + 1) := by
              omega
            rwa [harith] at hres
    | none =>
      obtain ⟨stF, ds, heqR, hpuF, hdslen, haoR, hmrR, hper⟩ :=
        random_go_spec slot shuffled pubs now1 now2 rest st (i + 1) h hndr
      refine ⟨stF, (ch, none) :: ds, ?_, hpuF, by simp [hdslen], haoR, ?_, ?_⟩
      · simp only [execute_random_slot_go, hsel, exceptBind_ok, heqR]
      · intro chId hnotin
        simp only [List.map_cons, List.mem_cons, not_or] at hnotin
        exact hmrR chId (by simpa using hnotin.2)
      · intro k ch' hk'
        cases k with
        | zero =>
          simp only [List.get?] at hk'
          cases hk'
          refine ⟨none, rfl, ?_, ?_⟩
          · intro _
            refine ⟨find_available_none st.placements ch.id slot.id shuffled
              (slot.rotationOffset + i) hsel, hmrR ch.id hchnotin⟩
          · intro c2 hc2
            cases hc2
        | succ k =>
          simp only [List.get?] at hk'
          obtain ⟨sel, hds, hskip, hfit⟩ := hper k ch' hk'
          refine ⟨sel, by simpa using hds, hskip, ?_⟩
          · intro c2 hc2
            have hres := hfit c2 hc2
            have harith : slot.rotationOffset + (i + 1) + k = slot.rotationOffset + i + (k + 1) := by
              omega
            rwa [harith] at hres

/-- C2 (amended): in random mode, for the destination at position `k` of
the iteration order the selector walks the day's permutation starting at
`rotation_offset + k` (the code passes `slot.rotation_offset + i` for the
`i`-th channel, not the bare offset of the claim) and picks the first item
whose identity is not the content of another unit's active placement on
that destination; if every pool item is excluded for a destination, that
destination is skipped this cycle and its placement rows are unchanged. -/
theorem random_selection_spec (md5seed : String → Nat)
    (shuffle : Nat → List AdCreative → List AdCreative) (st : DbState)
    (slot : Slot) (creatives : List AdCreative) (channels : List Channel)
    (pubs : Channel → Except PyErr Nat) (now : PyDateTime) (now1 now2 : Nat)
    (h : PairUnique st) (hnd : (channels.map (fun c => c.id)).Nodup) :
    ∃ stF ds,
      execute_random_slot md5seed shuffle st slot creatives channels pubs
        now now1 now2 = .ok (stF, ds) ∧
      ds.length = channels.length ∧
      (∀ k ch, channels.get? k = some ch →
        ∃ sel, ds.get? k = some (ch, sel) ∧
          (sel = none →
            (∀ c ∈ shuffledCreatives md5seed shuffle now slot.id creatives,
              c.id ∈ activeOtherCreativeIds st.placements ch.id slot.id) ∧
            matchingRows stF ch.id slot.id = matchingRows st ch.id slot.id) ∧
          (∀ c, sel = some c →
            FirstFit (shuffledCreatives md5seed shuffle now slot.id creatives)
              (activeOtherCreativeIds st.placements ch.id slot.id)
              (slot.rotationOffset + k) c)) := by
  obtain ⟨stF, ds, heq, -, hdslen, -, -, hper⟩ :=
    random_go_spec slot (shuffledCreatives md5seed shuffle now slot.id creatives)
      pubs now1 now2 channels st 0 h hnd
  refine ⟨stF, ds, heq, hdslen, ?_⟩
  intro k ch hk
  obtain ⟨sel, hds, hskip, hfit⟩ := hper k ch hk
  refine ⟨sel, hds, hskip, ?_⟩
  intro c hc
  have hres := hfit c hc
  rwa [show slot.rotationOffset + 0 + k = slot.rotationOffset + k by omega] at hres

theorem random_selection_spec_witness :
    ∃ stF ds, execute_random_slot (fun _ => 0) (fun _ l => l) ⟨[], []⟩ slotR
        [cr1, cr2] [chanA, chanB] (fun ch => .ok (100 + ch.id))
        ⟨"2026-10-12", "12:00:00"⟩ 5 6 = .ok (stF, ds) ∧ ds.length = 2 := by
  obtain ⟨stF, ds, heq, hlen, -⟩ := random_selection_spec (fun _ => 0) (fun _ l => l)
    ⟨[], []⟩ slotR [cr1, cr2] [chanA, chanB] (fun ch => .ok (100 + ch.id))
    ⟨"2026-10-12", "12:00:00"⟩ 5 6 (by unfold PairUnique; simp) (by decide)
  exact ⟨stF, ds, heq, by simpa using hlen⟩

/-- C2 (counterexample): permutation [cr1, cr2], rotation offset 0, two
destinations, nothing active anywhere.  The code assigns cr2 to the second
destination and its cross-unit exclusion set there is empty, yet cr2 is not
the first-fit item of the walk starting at rotation_offset = 0 (that is
cr1): the claim's "starting at the unit's rotation_offset" is false for
every destination after the first. -/
theorem random_offset_counterexample :
    (execute_random_slot (fun _ => 0) (fun _ l => l) ⟨[], []⟩ slotR [cr1, cr2]
        [chanA, chanB] (fun ch => .ok (100 + ch.id))
        ⟨"2026-10-12", "12:00:00"⟩ 5 6).map (fun r => r.2) =
      .ok [(chanA, some cr1), (chanB, some cr2)] ∧
    (execute_random_slot (fun _ => 0) (fun _ l => l) ⟨[], []⟩ slotR [cr1, cr2]
        [chanA, chanB] (fun ch => .ok (100 + ch.id))
        ⟨"2026-10-12", "12:00:00"⟩ 5 6).map
      (fun r => activeOtherCreativeIds r.1.placements chanB.id slotR.id) = .ok [] ∧
    ¬ FirstFit [cr1, cr2] [] 0 cr2 ∧
    cr2 ≠ cr1 := by
  refine ⟨by rfl, by rfl, ?_, by decide⟩
  rintro ⟨j, hj, hget, -, hall⟩
  simp at hj
  interval_cases j
  · simp [cr1, cr2] at hget
  · obtain ⟨d, -, hdin⟩ := hall 0 (by omega)
    simp at hdin

/-- C10 (amended): a fixed-mode unit with no enabled bound item skips the
cycle without touching state; otherwise it publishes the FIRST enabled item
of the stored pool order (`creatives[0]` — not necessarily the lowest id)
to every destination of the group, one audit row per destination. -/
theorem fixed_slot_first_enabled (md5seed : String → Nat)
    (shuffle : Nat → List AdCreative → List AdCreative) (st : DbState)
    (slot : Slot) (slotCreatives : List AdCreative) (channels : List Channel)
    (pubs : Channel → Except PyErr Nat) (now : PyDateTime) (now1 now2 : Nat)
    (c0 : AdCreative) (rest : List AdCreative) (h : PairUnique st)
    (hen : slot.enabled = true) (hty : slot.slotType = "fixed") :
    (slotCreatives.filter (fun c => c.enabled) = [] →
      execute_slot_publish md5seed shuffle st slot slotCreatives channels pubs
        now now1 now2 = .ok (st, slot)) ∧
    (slotCreatives.filter (fun c => c.enabled) = c0 :: rest → channels ≠ [] →
      ∃ st', execute_slot_publish md5seed shuffle st slot slotCreatives channels
          pubs now now1 now2 = .ok (st', slot) ∧
        st'.logs = st.logs ++ channels.map (fun ch => mkPublishLog slot c0 ch (pubs ch))) := by
  constructor
  · intro hfil
    simp [execute_slot_publish, hen, hfil]
  · intro hfil hch
    have hchE : channels.isEmpty = false := by
      cases channels with
      | nil => exact absurd rfl hch
      | cons a l => rfl
    have hner : (slot.slotType == "random") = false := by
      rw [hty]
      rfl
    have hyes : (slot.slotType == "fixed") = true := by
      rw [hty]
      rfl
    obtain ⟨st', heqF, hpu', hlogs'⟩ := execute_fixed_spec slot c0 pubs now1 now2 channels st h
    refine ⟨st', ?_, hlogs'⟩
    simp [execute_slot_publish, hen, hfil, hchE, hyes, hner, heqF, exceptBind_ok]

theorem fixed_slot_first_enabled_witness :
    ∃ st', execute_slot_publish (fun _ => 0) (fun _ l => l) ⟨[], []⟩ slotW poolX
        [chanB] (fun _ => .ok 500) ⟨"2026-10-12", "12:00:00"⟩ 5 6 = .ok (st', slotW) ∧
      st'.logs = [mkPublishLog slotW ⟨5, true⟩ chanB (.ok 500)] := by
  obtain ⟨-, h2⟩ := fixed_slot_first_enabled (fun _ => 0) (fun _ l => l) ⟨[], []⟩
    slotW poolX [chanB] (fun _ => .ok 500) ⟨"2026-10-12", "12:00:00"⟩ 5 6
    ⟨5, true⟩ [⟨2, true⟩] (by unfold PairUnique; simp) rfl rfl
  obtain ⟨st', heq, hlogs⟩ := h2 (by decide) (by simp)
  exact ⟨st', heq, by simpa using hlogs⟩

/-- C10 (counterexample): both bound items are enabled, stored with id 5
before id 2; the cycle publishes id 5 although the lowest enabled identity
is 2 — the "lowest identity value" tie-break of the claim does not exist in
the code, which takes `creatives[0]` in stored order. -/
theorem fixed_lowest_id_counterexample :
    (execute_slot_publish (fun _ => 0) (fun _ l => l) ⟨[], []⟩ slotW poolX [chanB]
        (fun _ => .ok 500) ⟨"2026-10-12", "12:00:00"⟩ 5 6).map
      (fun r => r.1.logs.map (fun lg => lg.creativeId)) = .ok [some 5] ∧
    (⟨2, true⟩ : AdCreative) ∈ poolX ∧ (2 : Nat) < 5 := by
  refine ⟨rfl, by decide, by decide⟩

/-! ### Clear route lemmas -/

theorem clear_marks (channels : List Channel) (sid now : Nat) :
    ∀ l : List Placement,
      (∀ p ∈ l, p.slotId = sid → p.deletedAt = none →
        p.messageId.isSome = true ∧ ∃ c ∈ channels, c.id = p.channelId) →
      l.map (fun p =>
        if p.slotId == sid && p.deletedAt.isNone && p.messageId.isSome
            && (channels.find? (fun c => c.id == p.channelId)).isSome then
          { p with deletedAt := some now }
        else p) =
      l.map (fun p =>
        if p.slotId = sid ∧ p.deletedAt = none then
          { p with deletedAt := some now }
        else p) := by
  intro l hmsg
  apply List.map_congr_left
  intro p hp
  by_cases hspec : p.slotId = sid ∧ p.deletedAt = none
  · obtain ⟨hmsgid, c, hcmem, hceq⟩ := hmsg p hp hspec.1 hspec.2
    have hfind : (channels.find? (fun c => c.id == p.channelId)).isSome = true :=
      List.find?_isSome.mpr ⟨c, hcmem, by simp [hceq]⟩
    simp [hspec.1, hspec.2, hmsgid, hfind]
  · rcases not_and_or.mp hspec with h1 | h2
    · simp [hspec, h1]
    · cases hdel : p.deletedAt with
      | none => exact absurd hdel h2
      | some v => simp [hspec, hdel]

theorem joinActiveRows_length (channels : List Channel) (sid : Nat) :
    ∀ l : List Placement,
      (∀ p ∈ l, p.slotId = sid → p.deletedAt = none →
        p.messageId.isSome = true ∧ ∃ c ∈ channels, c.id = p.channelId) →
      (l.filterMap (fun p =>
        if p.slotId == sid && p.deletedAt.isNone && p.messageId.isSome then
          (channels.find? (fun c => c.id == p.channelId)).map (fun c => (p, c))
        else none)).length =
      (l.filter (fun p => decide (p.slotId = sid ∧ p.deletedAt = none))).length
  | [], _ => rfl
  | p :: l, hmsg => by
    have ih := joinActiveRows_length channels sid l
      (fun q hq => hmsg q (List.mem_cons_of_mem p hq))
    by_cases hspec : p.slotId = sid ∧ p.deletedAt = none
    · obtain ⟨hmsgid, c, hcmem, hceq⟩ := hmsg p (by simp) hspec.1 hspec.2
      have hs : (channels.find? (fun ch2 => ch2.id == p.channelId)).isSome = true :=
        List.find?_isSome.mpr ⟨c, hcmem, by simp [hceq]⟩
      obtain ⟨c2, hc2⟩ := Option.isSome_iff_exists.mp hs
      have hgp : (if (p.slotId == sid && p.deletedAt.isNone && p.messageId.isSome) = true
          then Option.map (fun c => (p, c)) (channels.find? (fun c => c.id == p.channelId))
          else none) = some (p, c2) := by
        simp [hspec.1, hspec.2, hmsgid, hc2]
      have hfp : decide (p.slotId = sid ∧ p.deletedAt = none) = true := by
        simp [hspec.1, hspec.2]
      rw [List.filterMap_cons, List.filter_cons]
      simp only [hgp, hfp, if_true, List.length_cons]
      rw [ih]
    · have hfp : decide (p.slotId = sid ∧ p.deletedAt = none) = false := by
        simp only [decide_eq_false_iff_not]
        exact hspec
      have hgp : (if (p.slotId == sid && p.deletedAt.isNone && p.messageId.isSome) = true
          then Option.map (fun c => (p, c)) (channels.find? (fun c => c.id == p.channelId))
          else none) = none := by
        rcases not_and_or.mp hspec with h1 | h2
        · simp [h1]
        · cases hdel : p.deletedAt with
          | none => exact absurd hdel h2
          | some v => simp [hdel]
      rw [List.filterMap_cons, List.filter_cons]
      simp only [hgp, hfp, Bool.false_eq_true, if_false]
      rw [ih]

theorem bg_counts_aux (delOutcome : Int → Nat → Bool) :
    ∀ (msgs : List (Int × Nat)) (a b : Nat),
      (msgs.foldl (fun acc cm =>
        if delOutcome cm.1 cm.2 then (acc.1 + 1, acc.2) else (acc.1, acc.2 + 1)) (a, b)).1 +
      (msgs.foldl (fun acc cm =>
        if delOutcome cm.1 cm.2 then (acc.1 + 1, acc.2) else (acc.1, acc.2 + 1)) (a, b)).2 =
      a + b + msgs.length
  | [], a, b => by simp
  | cm :: msgs, a, b => by
    have ih1 := bg_counts_aux delOutcome msgs (a + 1) b
    have ih2 := bg_counts_aux delOutcome msgs a (b + 1)
    cases hd : delOutcome cm.1 cm.2 with
    | true =>
      simp only [List.foldl_cons, hd, if_true, List.length_cons]
      omega
    | false =>
      simp only [List.foldl_cons, hd, Bool.false_eq_true, if_false, List.length_cons]
      omega

/-- C7: clearing a unit synchronously marks every active placement of the
unit with `deleted_at = now` (given the invariant that active placements
carry a message id and an existing channel row) while touching nothing
else, writes no audit rows in phase 1, and enqueues exactly one background
removal operation per placement so marked; the detached background task is
a pure fold over that queue — it returns one success-or-failure tick per
queued message and has no access to the placement state. -/
theorem clear_slot_two_phase (st : DbState) (channels : List Channel)
    (sid now : Nat)
    (hmsg : ∀ p ∈ st.placements, p.slotId = sid → p.deletedAt = none →
      p.messageId.isSome = true ∧ ∃ c ∈ channels, c.id = p.channelId) :
    (clear_slot st channels sid now).1.placements =
      st.placements.map (fun p =>
        if p.slotId = sid ∧ p.deletedAt = none then
          { p with deletedAt := some now }
        else p) ∧
    (clear_slot st channels sid now).1.logs = st.logs ∧
    (clear_slot st channels sid now).2.length =
      (st.placements.filter (fun p => decide (p.slotId = sid ∧ p.deletedAt = none))).length ∧
    (∀ delOutcome,
      (delete_slot_messages_background (clear_slot st channels sid now).2 delOutcome).1 +
      (delete_slot_messages_background (clear_slot st channels sid now).2 delOutcome).2 =
      (clear_slot st channels sid now).2.length) := by
  refine ⟨?_, rfl, ?_, ?_⟩
  · exact clear_marks channels sid now st.placements hmsg
  · show ((joinActiveRows st channels sid).map _).length = _
    rw [List.length_map]
    exact joinActiveRows_length channels sid st.placements hmsg
  · intro delOutcome
    unfold delete_slot_messages_background
    rw [bg_counts_aux]
    simp

theorem clear_slot_two_phase_witness :
    (clear_slot stC chansC 1 99).2.length = 3 ∧
    ∀ delOutcome,
      (delete_slot_messages_background (clear_slot stC chansC 1 99).2 delOutcome).1 +
      (delete_slot_messages_background (clear_slot stC chansC 1 99).2 delOutcome).2 = 3 := by
  obtain ⟨-, -, hlen, hbg⟩ := clear_slot_two_phase stC chansC 1 99 (by decide)
  have h3 : (clear_slot stC chansC 1 99).2.length = 3 := by
    rw [hlen]
    rfl
  exact ⟨h3, fun dO => by rw [hbg dO, h3]⟩

/-! ### Scheduler sync lemmas -/

theorem slotJobOf_key (s : Slot) (j : Job) (h : slotJobOf s = some j) :
    j.key = .slotPublish s.id := by
  unfold slotJobOf at h
  cases hp : parse_cron s.publishCron with
  | ok t => rw [hp] at h; cases h; rfl
  | error e => rw [hp] at h; cases h

theorem slotJobOf_isSome_iff (s : Slot) :
    (slotJobOf s).isSome = cronOk s.publishCron := by
  unfold slotJobOf cronOk
  cases parse_cron s.publishCron <;> rfl

theorem slotKeyCount_append (l1 l2 : List Job) (sid : Nat) :
    slotKeyCount (l1 ++ l2) sid = slotKeyCount l1 sid + slotKeyCount l2 sid := by
  unfold slotKeyCount
  rw [List.filter_append, List.length_append]

theorem slotKeyCount_kept (jobs : List Job) (sid : Nat) :
    slotKeyCount (jobs.filter (fun j => !isSlotJob j.key)) sid = 0 := by
  unfold slotKeyCount
  rw [List.length_eq_zero]
  apply List.filter_eq_nil.mpr
  intro j hj
  have hk := (List.mem_filter.mp hj).2
  cases hkey : j.key with
  | slotPublish n => rw [hkey] at hk; simp [isSlotJob] at hk
  | otherJob nm => simp [hkey]

theorem mapped_count_zero :
    ∀ (slots : List Slot) (sid : Nat), sid ∉ slots.map (fun x => x.id) →
      slotKeyCount ((slots.filter (fun x => x.enabled)).filterMap slotJobOf) sid = 0
  | [], _, _ => rfl
  | s0 :: rest, sid, hnot => by
    have hnot2 : s0.id ≠ sid ∧ sid ∉ rest.map (fun x => x.id) := by
      simp only [List.map_cons, List.mem_cons, not_or] at hnot
      exact ⟨fun h => hnot.1 h.symm, hnot.2⟩
    have ih := mapped_count_zero rest sid hnot2.2
    cases hen : s0.enabled with
    | false =>
      simp only [List.filter_cons, hen, Bool.false_eq_true, if_false]
      exact ih
    | true =>
      simp only [List.filter_cons, hen, if_true]
      cases hj : slotJobOf s0 with
      | none =>
        rw [List.filterMap_cons]
        simp only [hj]
        exact ih
      | some j =>
        rw [List.filterMap_cons]
        simp only [hj]
        unfold slotKeyCount
        rw [List.filter_cons]
        have hdec : decide (j.key = JobKey.slotPublish sid) = false := by
          rw [slotJobOf_key s0 j hj]
          simp [hnot2.1]
        simp only [hdec, Bool.false_eq_true, if_false]
        unfold slotKeyCount at ih
        exact ih

theorem mapped_count_mem :
    ∀ (slots : List Slot) (s : Slot), (slots.map (fun x => x.id)).Nodup → s ∈ slots →
      slotKeyCount ((slots.filter (fun x => x.enabled)).filterMap slotJobOf) s.id =
        if s.enabled = true ∧ cronOk s.publishCron = true then 1 else 0
  | [], s, _, hmem => absurd hmem (by simp)
  | s0 :: rest, s, hnd, hmem => by
    have hnd1 : (s0.id :: rest.map (fun x => x.id)).Nodup := by
      rw [List.map_cons] at hnd
      exact hnd
    have hnd2 := List.nodup_cons.mp hnd1
    rcases List.mem_cons.mp hmem with heq | hmem2
    · subst heq
      have hz := mapped_count_zero rest s.id (fun hc => hnd2.1 hc)
      cases hen : s.enabled with
      | false =>
        simp only [List.filter_cons, hen, Bool.false_eq_true, if_false]
        rw [hz]
        simp [hen]
      | true =>
        simp only [List.filter_cons, hen, if_true]
        cases hj : slotJobOf s with
        | none =>
          have hcok : cronOk s.publishCron = false := by
            have hiff := slotJobOf_isSome_iff s
            rw [hj] at hiff
            simpa using hiff.symm
          rw [List.filterMap_cons]
          simp only [hj]
          rw [hz]
          simp [hcok]
        | some j =>
          have hcok : cronOk s.publishCron = true := by
            have hiff := slotJobOf_isSome_iff s
            rw [hj] at hiff
            simpa using hiff.symm
          rw [List.filterMap_cons]
          simp only [hj]
          unfold slotKeyCount
          rw [List.filter_cons]
          have hdec : decide (j.key = JobKey.slotPublish s.id) = true := by
            rw [slotJobOf_key s j hj]
            simp
          simp only [hdec, if_true, List.length_cons]
          unfold slotKeyCount at hz
          rw [hz]
          simp [hen, hcok]
    · have hne : s0.id ≠ s.id := by
        intro hc
        apply hnd2.1
        rw [hc]
        exact List.mem_map_of_mem _ hmem2
      have ih := mapped_count_mem rest s hnd2.2 hmem2
      cases hen : s0.enabled with
      | false =>
        simp only [List.filter_cons, hen, Bool.false_eq_true, if_false]
        exact ih
      | true =>
        simp only [List.filter_cons, hen, if_true]
        cases hj : slotJobOf s0 with
        | none =>
          rw [List.filterMap_cons]
          simp only [hj]
          exact ih
        | some j =>
          rw [List.filterMap_cons]
          simp only [hj]
          unfold slotKeyCount
          rw [List.filter_cons]
          have hdec : decide (j.key = JobKey.slotPublish s.id) = false := by
            rw [slotJobOf_key s0 j hj]
            simp [hne]
          simp only [hdec, Bool.false_eq_true, if_false]
          unfold slotKeyCount at ih
          rw [ih]

/-- C8: after `sync()` the live trigger set matches the enabled units
exactly — one publish trigger keyed by unit id per enabled unit with a
parsable cron expression, none for disabled units, none for units whose
expression is malformed (those are skipped while all other enabled units
are still registered), and no trigger for any id outside the unit table;
jobs not owned by the synchroniser are not counted as unit triggers. -/
theorem sync_trigger_set (jobs : List Job) (slots : List Slot)
    (hnd : (slots.map (fun s => s.id)).Nodup) :
    (∀ s ∈ slots, s.enabled = true → cronOk s.publishCron = true →
      slotKeyCount (sync_slot_jobs jobs slots) s.id = 1) ∧
    (∀ s ∈ slots, s.enabled = false →
      slotKeyCount (sync_slot_jobs jobs slots) s.id = 0) ∧
    (∀ s ∈ slots, cronOk s.publishCron = false →
      slotKeyCount (sync_slot_jobs jobs slots) s.id = 0) ∧
    (∀ sid, sid ∉ slots.map (fun s => s.id) →
      slotKeyCount (sync_slot_jobs jobs slots) sid = 0) := by
  have hsync : ∀ sid, slotKeyCount (sync_slot_jobs jobs slots) sid =
      slotKeyCount ((slots.filter (fun x => x.enabled)).filterMap slotJobOf) sid := by
    intro sid
    unfold sync_slot_jobs
    rw [slotKeyCount_append, slotKeyCount_kept]
    simp
  refine ⟨?_, ?_, ?_, ?_⟩
  · intro s hs hen hcok
    rw [hsync, mapped_count_mem slots s hnd hs]
    simp [hen, hcok]
  · intro s hs hen
    rw [hsync, mapped_count_mem slots s hnd hs]
    simp [hen]
  · intro s hs hcok
    rw [hsync, mapped_count_mem slots s hnd hs]
    simp [hcok]
  · intro sid hsid
    rw [hsync]
    exact mapped_count_zero slots sid hsid

theorem sync_trigger_set_witness :
    slotKeyCount (sync_slot_jobs jobs0 [sGood, sBad, sOff]) 1 = 1 ∧
    slotKeyCount (sync_slot_jobs jobs0 [sGood, sBad, sOff]) 2 = 0 ∧
    slotKeyCount (sync_slot_jobs jobs0 [sGood, sBad, sOff]) 3 = 0 := by
  have h := sync_trigger_set jobs0 [sGood, sBad, sOff] (by decide)
  exact ⟨h.1 sGood (by simp) rfl rfl, h.2.2.1 sBad (by simp) rfl,
    h.2.1 sOff (by simp) rfl⟩

end TGPush
